import Mathlib

/-!
Verification development for the k8s-gsm-tools secret rotator and
secret sync controller.

The remote Secret Manager store and the cluster Secret store are modelled by
the repository's own deterministic mock clients
(`secret-rotator/tests/mockprovisoner.go` second part, and `tests/mockclient.go`),
which the repository's tests use as the reference semantics for the clients.
Go maps are modelled as association lists (`SMap`), Go `time.Time` and
`time.Duration` as integers (`now.After(t)` is `now > t`), byte slices as
`List Nat`, and Go's `(value, error)` returns as `Except`.
-/

/-- Byte slices (`[]byte`). -/
abbrev Bytes := List Nat

/-- Instants (`time.Time`), as an abstract integer timeline. -/
abbrev GoTime := Int

/-- Durations (`time.Duration`). -/
abbrev GoDuration := Int

/-- Errors returned by the mocked clients. The rotator inspects the gRPC
status code of an error (`status.Code(err) == codes.NotFound`); `notFound`
models that code, `other` any other error. -/
inductive GErr where
  | notFound (msg : String)
  | other (msg : String)
deriving Repr, DecidableEq

/-- Model of `status.Code(err) == codes.NotFound`. -/
def GErr.isNotFound : GErr → Bool
  | .notFound _ => true
  | .other _ => false

instance {ε α : Type} [DecidableEq ε] [DecidableEq α] : DecidableEq (Except ε α) := fun a b =>
  match a, b with
  | .ok x, .ok y => decidable_of_iff (x = y) (by simp)
  | .error e, .error f => decidable_of_iff (e = f) (by simp)
  | .ok _, .error _ => isFalse (by simp)
  | .error _, .ok _ => isFalse (by simp)

/-- A Go `map[string]α`, as an association list. -/
abbrev SMap (α : Type) := List (String × α)

/-- Map lookup (`m[k]` with its `ok` flag). -/
def SMap.find? {α : Type} : SMap α → String → Option α
  | [], _ => none
  | (k, v) :: m, key => if key = k then some v else SMap.find? m key

/-- Map update (`m[k] = v`): replaces the first binding of `k`, or appends. -/
def SMap.insert {α : Type} : SMap α → String → α → SMap α
  | [], key, val => [(key, val)]
  | (k, v) :: m, key, val =>
    if k = key then (key, val) :: m else (k, v) :: SMap.insert m key val

/-- Map deletion (`delete(m, k)`). -/
def SMap.erase {α : Type} : SMap α → String → SMap α
  | [], _ => []
  | (k, v) :: m, key =>
    if k = key then SMap.erase m key else (k, v) :: SMap.erase m key

/-- The key set of a map, in representation order. -/
def SMap.keys {α : Type} (m : SMap α) : List String := m.map Prod.fst

/-- A well-formed map binds each key at most once. -/
abbrev SMap.NodupKeys {α : Type} (m : SMap α) : Prop := m.keys.Nodup

/-! ## Secret Manager mock store (secret-rotator/tests, second file: `MockClient`) -/

namespace Rot

/-- State of a Secret Manager secret version (`secretmanagerpb.SecretVersion_State`). -/
inductive SecretVersionState where
  | ENABLED
  | DISABLED
  | DESTROYED
deriving Repr, DecidableEq

/-- A mocked secret version (`tests.Version`): create time, data, state. -/
structure Version where
  CreateTime : GoTime
  Data : Bytes
  State : SecretVersionState
deriving Repr, DecidableEq

/-- A mocked Secret Manager secret (`tests.Secret`): versions keyed by decimal
strings, plus the label map. -/
structure Secret where
  Versions : SMap Version
  Labels : SMap String
deriving Repr, DecidableEq

/-- The mocked Secret Manager client (`tests.MockClient`): secrets keyed by
project then secret id. -/
structure MockClient where
  Secrets : SMap (SMap Secret)
deriving Repr, DecidableEq

/-- Go double indexing `cl.Secrets[project][id]` (missing project behaves as a
missing entry). -/
def MockClient.getSecret? (cl : MockClient) (project id : String) : Option Secret :=
  (cl.Secrets.find? project).bind (fun m => m.find? id)

/-- Replaces the secret stored at `project`/`id` (Go in-place mutation of the
entry; only used after the entry has been validated to exist). -/
def MockClient.setSecret (cl : MockClient) (project id : String) (s : Secret) : MockClient :=
  match cl.Secrets.find? project with
  | none => cl
  | some m => { Secrets := cl.Secrets.insert project (m.insert id s) }

def projectNotFoundMsg (project : String) : String :=
  "Project [projects/" ++ project ++ "] not found."

def secretNotFoundMsg (project id : String) : String :=
  "Secret [projects/" ++ project ++ "/secrets/" ++ id ++ "] not found or has no versions."

def versionNotFoundMsg (project id version : String) : String :=
  "Secret Version [projects/" ++ project ++ "/secrets/" ++ id ++ "/versions/" ++ version ++ "] not found."

/-- Source `MockClient.ValidateProject`. -/
def MockClient.ValidateProject (cl : MockClient) (project : String) : Except GErr Unit :=
  match cl.Secrets.find? project with
  | none => .error (.notFound (projectNotFoundMsg project))
  | some _ => .ok ()

/-- Source `MockClient.ValidateSecret`. -/
def MockClient.ValidateSecret (cl : MockClient) (project id : String) : Except GErr Unit :=
  match cl.getSecret? project id with
  | none => .error (.notFound (secretNotFoundMsg project id))
  | some _ => .ok ()

/-- Resolution of the `"latest"` version alias: the highest version number,
which the mock computes as the number of stored versions. -/
def Secret.resolve (s : Secret) (version : String) : String :=
  if version = "latest" then toString s.Versions.length else version

/-- Source `MockClient.ValidateSecretVersion` (the leading `ValidateSecret` call is
merged into the single secret lookup). -/
def MockClient.ValidateSecretVersion (cl : MockClient) (project id version : String) :
    Except GErr Unit :=
  match cl.getSecret? project id with
  | none => .error (.notFound (secretNotFoundMsg project id))
  | some s =>
    match s.Versions.find? (s.resolve version) with
    | none => .error (.notFound (versionNotFoundMsg project id (s.resolve version)))
    | some _ => .ok ()

/-- Source `MockClient.UpsertSecret`: validates the project, creates the secret if
missing, then appends version number `len(Versions)+1` with the given data in
state ENABLED and zero create time (the mock does not generate create times).
Returns the new version number. -/
def MockClient.UpsertSecret (cl : MockClient) (project id : String) (data : Bytes) :
    Except GErr (String × MockClient) :=
  match cl.Secrets.find? project with
  | none => .error (.notFound (projectNotFoundMsg project))
  | some secrets =>
    let s : Secret := (secrets.find? id).getD ⟨[], []⟩
    let version := toString (s.Versions.length + 1)
    let s' : Secret := { s with Versions := s.Versions.insert version ⟨0, data, .ENABLED⟩ }
    .ok (version, { Secrets := cl.Secrets.insert project (secrets.insert id s') })

/-- Source `MockClient.GetCreateTime` (validation merged into the lookups). -/
def MockClient.GetCreateTime (cl : MockClient) (project id version : String) :
    Except GErr GoTime :=
  match cl.getSecret? project id with
  | none => .error (.notFound (secretNotFoundMsg project id))
  | some s =>
    match s.Versions.find? (s.resolve version) with
    | none => .error (.notFound (versionNotFoundMsg project id (s.resolve version)))
    | some ver => .ok ver.CreateTime

/-- Source `MockClient.GetSecretLabels` (the source returns a copy of the label map;
values are immutable here, so the map itself is returned). -/
def MockClient.GetSecretLabels (cl : MockClient) (project id : String) :
    Except GErr (SMap String) :=
  match cl.getSecret? project id with
  | none => .error (.notFound (secretNotFoundMsg project id))
  | some s => .ok s.Labels

/-- Source `MockClient.GetSecretVersionData`. -/
def MockClient.GetSecretVersionData (cl : MockClient) (project id version : String) :
    Except GErr Bytes :=
  match cl.getSecret? project id with
  | none => .error (.notFound (secretNotFoundMsg project id))
  | some s =>
    match s.Versions.find? (s.resolve version) with
    | none => .error (.notFound (versionNotFoundMsg project id (s.resolve version)))
    | some ver => .ok ver.Data

/-- Source `MockClient.GetSecretVersionState`. -/
def MockClient.GetSecretVersionState (cl : MockClient) (project id version : String) :
    Except GErr SecretVersionState :=
  match cl.getSecret? project id with
  | none => .error (.notFound (secretNotFoundMsg project id))
  | some s =>
    match s.Versions.find? (s.resolve version) with
    | none => .error (.notFound (versionNotFoundMsg project id (s.resolve version)))
    | some ver => .ok ver.State

/-- Source `MockClient.DestroySecretVersion`: sets the state of the version to
DESTROYED. -/
def MockClient.DestroySecretVersion (cl : MockClient) (project id version : String) :
    Except GErr MockClient :=
  match cl.getSecret? project id with
  | none => .error (.notFound (secretNotFoundMsg project id))
  | some s =>
    match s.Versions.find? (s.resolve version) with
    | none => .error (.notFound (versionNotFoundMsg project id (s.resolve version)))
    | some ver =>
      .ok (cl.setSecret project id
        { s with Versions := s.Versions.insert (s.resolve version) { ver with State := .DESTROYED } })

/-- Source `MockClient.UpsertSecretLabel`. -/
def MockClient.UpsertSecretLabel (cl : MockClient) (project id key val : String) :
    Except GErr MockClient :=
  match cl.getSecret? project id with
  | none => .error (.notFound (secretNotFoundMsg project id))
  | some s => .ok (cl.setSecret project id { s with Labels := s.Labels.insert key val })

/-- Source `MockClient.DeleteSecretLabel`. -/
def MockClient.DeleteSecretLabel (cl : MockClient) (project id key : String) :
    Except GErr MockClient :=
  match cl.getSecret? project id with
  | none => .error (.notFound (secretNotFoundMsg project id))
  | some s => .ok (cl.setSecret project id { s with Labels := s.Labels.erase key })

end Rot

/-! ## Rotated secret configuration (secret-rotator/config/rotated-secret-config.go) -/

/-- Source `svckey.ServiceAccountKeySpec`. -/
structure ServiceAccountKeySpec where
  Project : String
  ServiceAccount : String
deriving Repr, DecidableEq

/-- Source `ServiceAccountKeySpec.Type()` (named `TypeStr` because `Type` is reserved). -/
def ServiceAccountKeySpec.TypeStr (_ : ServiceAccountKeySpec) : String :=
  "serviceAccountKey"

/-- Source `ServiceAccountKeySpec.Labels()`. -/
def ServiceAccountKeySpec.Labels (svc : ServiceAccountKeySpec) : SMap String :=
  [("project", svc.Project), ("service-account", svc.ServiceAccount)]

/-- Source `config.RotatedSecretType`: exactly one known kind so far. -/
structure RotatedSecretType where
  ServiceAccountKey : Option ServiceAccountKeySpec
deriving Repr, DecidableEq

/-- Source `RotatedSecretType.Type()` (named `TypeStr` because `Type` is reserved). -/
def RotatedSecretType.TypeStr (t : RotatedSecretType) : String :=
  match t.ServiceAccountKey with
  | some svc => svc.TypeStr
  | none => "UNKNOWN"

/-- Source `RotatedSecretType.Labels()` (`nil` for unknown kinds becomes the empty map). -/
def RotatedSecretType.Labels (t : RotatedSecretType) : SMap String :=
  match t.ServiceAccountKey with
  | some svc => svc.Labels
  | none => []

/-- Source `config.RefreshStrategy` (current variant: interval or cron). -/
structure RefreshStrategy where
  Interval : GoDuration
  Cron : String
deriving Repr, DecidableEq

/-- Source `config.RotatedSecretSpec` (the Go field `Type` is named `SecretType`
because `Type` is reserved). -/
structure RotatedSecretSpec where
  Project : String
  Secret : String
  SecretType : RotatedSecretType
  Refresh : RefreshStrategy
  GracePeriod : GoDuration
deriving Repr, DecidableEq

/-- Source `RotatedSecretSpec.String()`. -/
def RotatedSecretSpec.String (spec : RotatedSecretSpec) : String :=
  "SecretManager:/projects/" ++ spec.Project ++ "/secrets/" ++ spec.Secret

/-- Source `config.RotatedSecretConfig`. -/
structure RotatedSecretConfig where
  Specs : List RotatedSecretSpec
deriving Repr, DecidableEq

/-- Source `RotatedSecretConfig.Validate` (current variant,
`secret-rotator/config/rotated-secret-config.go`): only rejects the empty
configuration; per-field validation is a TODO in the source. -/
def RotatedSecretConfig.Validate (config : RotatedSecretConfig) : Except String Unit :=
  if config.Specs.length = 0 then .error "Empty secret sync configuration."
  else .ok ()

/-! ## Cron scheduler (secret-rotator/config/agent.go, second file: `Cron`) -/

/-- Source `config.secretStatus`: cron entry id, the pending-trigger flag, and the
cached cron string. -/
structure SecretStatus where
  entryID : Nat
  triggered : Bool
  cronStr : String
deriving Repr, DecidableEq

/-- The configuration-relevant state of `config.Cron`: the map from spec
identifier to its status (the underlying time wheel is external). -/
structure Cron where
  secrets : SMap SecretStatus
deriving Repr, DecidableEq

/-- Source `Cron.QueuedSecrets`: collects the identifiers whose `triggered` flag is
set and resets every entry's flag to false. The Go version returns a
`sets.String`; it is represented by the list of collected keys. -/
def Cron.QueuedSecrets (c : Cron) : List String × Cron :=
  ((c.secrets.filter (fun kv => kv.2.triggered)).map Prod.fst,
   { secrets := c.secrets.map (fun kv => (kv.1, { kv.2 with triggered := false })) })

/-! ## The legacy config variant appended to secret-rotator/svckey/svckey.go
(package `config` with interval-only `RefreshStrategy` and a full
`Validate`). -/

namespace Legacy

/-- Legacy `config.RefreshStrategy`: only `interval` exists; there is no cron
field in this variant. -/
structure RefreshStrategy where
  Interval : GoDuration
deriving Repr, DecidableEq

/-- Legacy `config.RotatedSecretSpec`. -/
structure RotatedSecretSpec where
  Project : String
  Secret : String
  SecretType : RotatedSecretType
  Refresh : RefreshStrategy
  GracePeriod : GoDuration
deriving Repr, DecidableEq

/-- Legacy `RotatedSecretSpec.String()`. -/
def RotatedSecretSpec.String (spec : RotatedSecretSpec) : String :=
  "SecretManager:/projects/" ++ spec.Project ++ "/secrets/" ++ spec.Secret

/-- Legacy `config.RotatedSecretConfig`. -/
structure RotatedSecretConfig where
  Specs : List RotatedSecretSpec
deriving Repr, DecidableEq

/-- The per-spec checks of the legacy `Validate` loop body, returning the
first failure. -/
def validateErr? (spec : RotatedSecretSpec) : Option String :=
  if spec.Project = "" then
    some ("Missing <project> field for rotated secret: " ++ spec.String ++ ".")
  else if spec.Secret = "" then
    some ("Missing <secret> field for rotated secret: " ++ spec.String ++ ".")
  else if spec.Refresh.Interval = 0 then
    some ("Missing <refresh strategy> for rotated secret: " ++ spec.String ++ ".")
  else
    match spec.SecretType.ServiceAccountKey with
    | none => some ("Missing <type> for rotated secret: " ++ spec.String ++ ".")
    | some _ => none

/-- Legacy `RotatedSecretConfig.Validate`: empty configs are rejected, then
each spec must have a project, a secret, a non-zero interval, and a known
type. -/
def RotatedSecretConfig.Validate (config : RotatedSecretConfig) : Except String Unit :=
  if config.Specs.length = 0 then .error "Empty secret sync configuration."
  else
    match config.Specs.findSome? validateErr? with
    | some msg => .error msg
    | none => .ok ()

end Legacy

/-! ## The rotator (secret-rotator/rotator/rotator.go) -/

/-- Source `rotator.SecretProvisioner`: mint a credential, or revoke the credential
recorded for a version. -/
structure SecretProvisioner where
  CreateNew : SMap String → Except GErr (String × Bytes)
  Deactivate : SMap String → String → Except GErr Unit

/-- Source `rotator.SecretRotator` (the client is passed explicitly as state). -/
structure SecretRotator where
  Provisioners : SMap SecretProvisioner

/-- Go loop `for key, val := range adds { labels[key] = val }`. -/
def labelsUnion (labels adds : SMap String) : SMap String :=
  adds.foldl (fun acc kv => acc.insert kv.1 kv.2) labels

/-- The regular expression `^v[0-9]+$` used by `Deactivate` to recognise
version-tracking label keys: a `v` followed by one or more digits. -/
def isVersionLabelKey (key : String) : Bool :=
  match key.data with
  | c :: rest => c == 'v' && !rest.isEmpty && rest.all Char.isDigit
  | [] => false

/-- The version slice `key[1:]` of a label key. -/
def versionOfKey (key : String) : String := String.mk (key.data.drop 1)

/-- The accumulator loop of decimal parsing. -/
def digitsVal : List Char → Nat → Nat
  | [], acc => acc
  | c :: cs, acc => digitsVal cs (acc * 10 + (c.toNat - '0'.toNat))

/-- Source `strconv.Atoi` on the digit strings accepted by the version-label pattern:
Go parses the decimal value, and the rotator keeps the zero value when
parsing fails (it discards the error). -/
def Atoi (s : String) : Nat :=
  if s.data ≠ [] ∧ s.data.all Char.isDigit then digitsVal s.data 0 else 0

/-- Source `SecretRotator.ShouldRefresh`: bootstrap when version 1 does not exist;
otherwise compare the elapsed time since the latest version's create time
against the interval. The cron branch of the source is an empty TODO and
falls through to false. -/
def SecretRotator.ShouldRefresh (r : SecretRotator) (cl : Rot.MockClient)
    (rotatedSecret : RotatedSecretSpec) (now : GoTime) : Except GErr Bool :=
  match cl.ValidateSecretVersion rotatedSecret.Project rotatedSecret.Secret "1" with
  | .error err => if err.isNotFound then .ok true else .error err
  | .ok _ =>
    match cl.GetCreateTime rotatedSecret.Project rotatedSecret.Secret "latest" with
    | .error err => .error err
    | .ok createTime =>
      if rotatedSecret.Refresh.Interval ≠ 0 then
        if now > createTime + rotatedSecret.Refresh.Interval then .ok true else .ok false
      else
        .ok false

/-- Source `SecretRotator.Refresh`: if `ShouldRefresh` holds, read the labels, attach
the provisioner's identifying labels, mint a new credential, publish it as a
new version, and record the `v<version> -> externalId` label. Returns whether
a refresh happened, with the resulting store. A missing provisioner entry
(nil interface in Go, which would panic) is modelled as an error. -/
def SecretRotator.Refresh (r : SecretRotator) (cl : Rot.MockClient)
    (rotatedSecret : RotatedSecretSpec) (now : GoTime) :
    Except GErr (Bool × Rot.MockClient) :=
  match r.ShouldRefresh cl rotatedSecret now with
  | .error err => .error err
  | .ok shouldRefresh =>
    if !shouldRefresh then .ok (false, cl)
    else
      match cl.GetSecretLabels rotatedSecret.Project rotatedSecret.Secret with
      | .error err => .error err
      | .ok labels0 =>
        let labels := labelsUnion labels0 rotatedSecret.SecretType.Labels
        match r.Provisioners.find? rotatedSecret.SecretType.TypeStr with
        | none => .error (.other "nil provisioner")
        | some p =>
          match p.CreateNew labels with
          | .error err => .error err
          | .ok (newId, newSecret) =>
            match cl.UpsertSecret rotatedSecret.Project rotatedSecret.Secret newSecret with
            | .error err => .error err
            | .ok (latestVersion, cl1) =>
              match cl1.UpsertSecretLabel rotatedSecret.Project rotatedSecret.Secret
                  ("v" ++ latestVersion) newId with
              | .error err => .error err
              | .ok cl2 => .ok (true, cl2)

/-- Source `SecretRotator.ShouldDeactivate`: requires `version` to exist (errors
propagate), treats a missing `version+1` as "retain the latest", and
otherwise deactivates only strictly after `createTime(version+1) +
gracePeriod`. -/
def SecretRotator.ShouldDeactivate (r : SecretRotator) (cl : Rot.MockClient)
    (rotatedSecret : RotatedSecretSpec) (version : String) (now : GoTime) :
    Except GErr Bool :=
  let nextVersion := toString (Atoi version + 1)
  match cl.ValidateSecretVersion rotatedSecret.Project rotatedSecret.Secret version with
  | .error err => .error err
  | .ok _ =>
    match cl.ValidateSecretVersion rotatedSecret.Project rotatedSecret.Secret nextVersion with
    | .error err => if err.isNotFound then .ok false else .error err
    | .ok _ =>
      match cl.GetCreateTime rotatedSecret.Project rotatedSecret.Secret nextVersion with
      | .error err => .error err
      | .ok nextCreateTime =>
        if now > nextCreateTime + rotatedSecret.GracePeriod then .ok true else .ok false

/-- One iteration of the `Deactivate` loop for the label key `key`: skip keys
not matching `^v[0-9]+$`; a `ShouldDeactivate` error is logged and leaves the
decision false; then revoke with the provisioner, destroy the store version,
and remove the label, where any failure is logged and skips the rest of the
iteration. A missing provisioner entry (a Go nil-interface panic) leaves the
state unchanged. -/
def SecretRotator.deactivateStep (r : SecretRotator) (rotatedSecret : RotatedSecretSpec)
    (now : GoTime) (labels : SMap String) (cl : Rot.MockClient) (key : String) :
    Rot.MockClient :=
  if !isVersionLabelKey key then cl
  else
    let version := versionOfKey key
    let shouldDeactivate :=
      match r.ShouldDeactivate cl rotatedSecret version now with
      | .ok b => b
      | .error _ => false
    if !shouldDeactivate then cl
    else
      match r.Provisioners.find? rotatedSecret.SecretType.TypeStr with
      | none => cl
      | some p =>
        match p.Deactivate labels version with
        | .error _ => cl
        | .ok _ =>
          match cl.DestroySecretVersion rotatedSecret.Project rotatedSecret.Secret version with
          | .error _ => cl
          | .ok cl1 =>
            match cl1.DeleteSecretLabel rotatedSecret.Project rotatedSecret.Secret
                ("v" ++ version) with
            | .error _ => cl1
            | .ok cl2 => cl2

/-- Source `SecretRotator.Deactivate`: fetch the labels, attach the provisioner's
identifying labels, and run the per-key loop over the label map. Per-key
failures are logged and skipped; only the initial label fetch can fail. -/
def SecretRotator.Deactivate (r : SecretRotator) (cl : Rot.MockClient)
    (rotatedSecret : RotatedSecretSpec) (now : GoTime) : Except GErr Rot.MockClient :=
  match cl.GetSecretLabels rotatedSecret.Project rotatedSecret.Secret with
  | .error err => .error err
  | .ok labels0 =>
    let labels := labelsUnion labels0 rotatedSecret.SecretType.Labels
    .ok (labels.foldl (fun c kv => r.deactivateStep rotatedSecret now labels c kv.1) cl)

/-! ## Sync-controller mock client (tests/mockclient.go) -/

namespace SyncM

instance : DecidableEq (SMap (SMap Bytes)) := inferInstance

/-- The sync-side mock client (`tests.MockClient`): cluster secrets keyed by
namespace, secret name, and key; Secret Manager values keyed by project and
secret id (this mock flattens a secret to its latest value). -/
structure MockClient where
  K8sSecret : SMap (SMap (SMap Bytes))
  SecretManagerSecret : SMap (SMap Bytes)
deriving Repr, DecidableEq

/-- Source `MockClient.ValidateKubernetesNamespace`. -/
def MockClient.ValidateKubernetesNamespace (cl : MockClient) (ns : String) :
    Except GErr Unit :=
  match cl.K8sSecret.find? ns with
  | none => .error (.notFound ("namespaces \x22" ++ ns ++ "\x22 not found"))
  | some _ => .ok ()

/-- Source `MockClient.ValidateKubernetesSecret`. -/
def MockClient.ValidateKubernetesSecret (cl : MockClient) (ns id : String) :
    Except GErr Unit :=
  match (cl.K8sSecret.find? ns).bind (fun m => m.find? id) with
  | none => .error (.notFound ("secrets \x22" ++ id ++ "\x22 not found"))
  | some _ => .ok ()

/-- Source `MockClient.GetKubernetesSecretValue`: a missing namespace is an error; a
missing secret or key yields `(nil, nil)`, modelled as the empty byte slice
(Go's `bytes.Equal` does not distinguish nil from empty). -/
def MockClient.GetKubernetesSecretValue (cl : MockClient) (ns id key : String) :
    Except GErr Bytes :=
  match cl.K8sSecret.find? ns with
  | none => .error (.notFound ("namespaces \x22" ++ ns ++ "\x22 not found"))
  | some secrets =>
    match secrets.find? id with
    | none => .ok []
    | some kvs =>
      match kvs.find? key with
      | none => .ok []
      | some val => .ok val

/-- Source `MockClient.UpsertKubernetesSecret`: a missing namespace is an error; a
missing secret is created empty; then the single key is set. -/
def MockClient.UpsertKubernetesSecret (cl : MockClient) (ns id key : String)
    (data : Bytes) : Except GErr MockClient :=
  match cl.K8sSecret.find? ns with
  | none => .error (.notFound ("namespaces \x22" ++ ns ++ "\x22 not found"))
  | some secrets =>
    let kvs := (secrets.find? id).getD []
    .ok { cl with K8sSecret := cl.K8sSecret.insert ns (secrets.insert id (kvs.insert key data)) }

/-- Source `MockClient.GetSecretManagerSecretValue`. -/
def MockClient.GetSecretManagerSecretValue (cl : MockClient) (project id : String) :
    Except GErr Bytes :=
  match (cl.SecretManagerSecret.find? project).bind (fun m => m.find? id) with
  | none => .error (.notFound ("Secret [projects/" ++ project ++ "/secrets/" ++ id ++ "] not found or has no versions."))
  | some val => .ok val

end SyncM

/-! ## Sync configuration and controller (secret-sync-controller) -/

/-- Source `config.SecretManagerSpec` (sync source). -/
structure SecretManagerSpec where
  Project : String
  Secret : String
deriving Repr, DecidableEq

/-- Source `config.KubernetesSpec` (sync destination). -/
structure KubernetesSpec where
  Namespace : String
  Secret : String
  Key : String
deriving Repr, DecidableEq

/-- Source `config.SecretSyncSpec`. -/
structure SecretSyncSpec where
  Source : SecretManagerSpec
  Destination : KubernetesSpec
deriving Repr, DecidableEq

namespace SecretSyncController

/-- Source `SecretSyncController.Sync`: read the source bytes and the destination
bytes, do nothing when they are equal, otherwise write the source bytes into
the destination key. The Go client object persists across the call, so the
(possibly unchanged) client state is returned alongside the result. -/
def Sync (cl : SyncM.MockClient) (spec : SecretSyncSpec) :
    Except GErr Bool × SyncM.MockClient :=
  match cl.GetSecretManagerSecretValue spec.Source.Project spec.Source.Secret with
  | .error err => (.error err, cl)
  | .ok srcData =>
    match cl.GetKubernetesSecretValue spec.Destination.Namespace spec.Destination.Secret
        spec.Destination.Key with
    | .error err => (.error err, cl)
    | .ok destData =>
      if srcData = destData then (.ok false, cl)
      else
        match cl.UpsertKubernetesSecret spec.Destination.Namespace spec.Destination.Secret
            spec.Destination.Key srcData with
        | .error err => (.error err, cl)
        | .ok cl1 => (.ok true, cl1)

end SecretSyncController

/-! ## Proof-side views of the deactivation loop, and concrete fixtures -/

/-- Source `ShouldDeactivate` localized to the one secret it reads, for a client in
which the secret exists (`project`/`id` only feed the error messages). -/
def shouldDeactivateS (project id : String) (grace : GoDuration) (s : Rot.Secret)
    (version : String) (now : GoTime) : Except GErr Bool :=
  let nextVersion := toString (Atoi version + 1)
  match s.Versions.find? (s.resolve version) with
  | none => .error (.notFound (Rot.versionNotFoundMsg project id (s.resolve version)))
  | some _ =>
    match s.Versions.find? (s.resolve nextVersion) with
    | none => .ok false
    | some nver =>
      if now > nver.CreateTime + grace then .ok true else .ok false

/-- The boolean consumed from a `ShouldDeactivate` call by the `Deactivate`
loop: the returned value, or false when the call reported an error (which the
loop logs and treats as "do not deactivate"). -/
def sdDecision (project id : String) (grace : GoDuration) (s : Rot.Secret)
    (version : String) (now : GoTime) : Bool :=
  match shouldDeactivateS project id grace s version now with
  | .ok b => b
  | .error _ => false

/-- One `Deactivate` iteration localized to the one secret it mutates,
assuming the provisioner is registered and its `Deactivate` succeeds (as the
repository's mock provisioner does). -/
def stepSecret (project id : String) (grace : GoDuration) (now : GoTime)
    (s : Rot.Secret) (key : String) : Rot.Secret :=
  if !isVersionLabelKey key then s
  else
    let version := versionOfKey key
    let sd := sdDecision project id grace s version now
    if !sd then s
    else
      match s.Versions.find? (s.resolve version) with
      | none => s
      | some ver =>
        { Versions := s.Versions.insert (s.resolve version) { ver with State := .DESTROYED },
          Labels := s.Labels.erase ("v" ++ version) }

/-- The deactivation decision for a label key, measured against a reference
secret state. -/
def fires (project id : String) (grace : GoDuration) (now : GoTime)
    (s : Rot.Secret) (key : String) : Bool :=
  isVersionLabelKey key && sdDecision project id grace s (versionOfKey key) now

/-- Two version maps agree on which versions exist and on their create times
(they may differ in states and data). `Deactivate` only changes states, so
this is invariant across the pass. -/
def VersionsShape (a b : SMap Rot.Version) : Prop :=
  ∀ k, (a.find? k).map Rot.Version.CreateTime = (b.find? k).map Rot.Version.CreateTime

/-- The service-account-key kind used throughout the repository's tests. -/
def svcType : RotatedSecretType := ⟨some ⟨"project-1", "service-foo"⟩⟩

/-- The mock provisioner (`tests.MockSvcProvisioner`): minting always returns
the configured id and value, revocation always succeeds. -/
def mockProvisioner : SecretProvisioner :=
  ⟨fun _ => .ok ("new_key_id", [9]), fun _ _ => .ok ()⟩

/-- A provisioner whose upstream revocation fails. -/
def failingProvisioner : SecretProvisioner :=
  ⟨fun _ => .ok ("new_key_id", [9]), fun _ _ => .error (.other "revocation failed")⟩

/-- A rotator with the mock provisioner registered for service-account keys. -/
def rotMock : SecretRotator := ⟨[("serviceAccountKey", mockProvisioner)]⟩

/-- A rotator whose provisioner fails to revoke. -/
def rotFail : SecretRotator := ⟨[("serviceAccountKey", failingProvisioner)]⟩

/-- A store with one secret carrying versions 1 (created at 0) and 2 (created
at 100), both ENABLED and labelled. -/
def clGrace : Rot.MockClient :=
  ⟨[("project-1", [("secret-1",
    ⟨[("1", ⟨0, [1], .ENABLED⟩), ("2", ⟨100, [2], .ENABLED⟩)],
     [("project", "project-1"), ("service-account", "service-foo"),
      ("v1", "key_id-1"), ("v2", "key_id-2")]⟩)])]⟩

/-- A spec for `clGrace` with a 50-tick interval and a 10-tick grace period. -/
def specGrace : RotatedSecretSpec :=
  { Project := "project-1", Secret := "secret-1", SecretType := svcType,
    Refresh := { Interval := 50, Cron := "" }, GracePeriod := 10 }

/-- A store with a single version 1 created at 0, ready to be refreshed. -/
def clRefresh : Rot.MockClient :=
  ⟨[("project-1", [("secret-1",
    ⟨[("1", ⟨0, [1], .ENABLED⟩)],
     [("project", "project-1"), ("service-account", "service-foo"),
      ("v1", "key_id-1")]⟩)])]⟩

/-- The store produced by refreshing `clRefresh` at time 100 under `specGrace`. -/
def clRefreshAfter : Rot.MockClient :=
  match rotMock.Refresh clRefresh specGrace 100 with
  | .ok (_, c) => c
  | .error _ => clRefresh

/-- A spec whose refresh strategy is cron, for `clGrace`. -/
def specCron : RotatedSecretSpec :=
  { Project := "project-1", Secret := "secret-1", SecretType := svcType,
    Refresh := { Interval := 0, Cron := "0 * * * *" }, GracePeriod := 3600 }

/-- A cron scheduler state in which `specCron` has been triggered. -/
def cronTriggered : Cron := ⟨[(specCron.String, ⟨1, true, "0 * * * *"⟩)]⟩

/-- The multi-version store of the repository's deactivation test: versions
1..4 created at 0, 7, 14, 21, all ENABLED and labelled. -/
def clMulti : Rot.MockClient :=
  ⟨[("project-1", [("secret-1",
    ⟨[("1", ⟨0, [1], .ENABLED⟩), ("2", ⟨7, [2], .ENABLED⟩),
      ("3", ⟨14, [3], .ENABLED⟩), ("4", ⟨21, [4], .ENABLED⟩)],
     [("project", "project-1"), ("service-account", "service-foo"),
      ("v1", "key_id-1"), ("v2", "key_id-2"),
      ("v3", "key_id-3"), ("v4", "key_id-4")]⟩)])]⟩

/-- A spec for `clMulti` with a grace period of 2 ticks. -/
def specMulti : RotatedSecretSpec :=
  { Project := "project-1", Secret := "secret-1", SecretType := svcType,
    Refresh := { Interval := 50, Cron := "" }, GracePeriod := 2 }

/-- A no-refresh-strategy rotation spec (zero interval, empty cron). -/
def specNoStrategy : RotatedSecretSpec :=
  { Project := "project-1", Secret := "secret-1", SecretType := svcType,
    Refresh := { Interval := 0, Cron := "" }, GracePeriod := 3600 }

/-- The legacy-config image of a cron-only spec: the legacy variant has no
cron field at all, so such a spec necessarily carries a zero interval. -/
def legacySpecNoInterval : Legacy.RotatedSecretSpec :=
  { Project := "project-1", Secret := "secret-1", SecretType := svcType,
    Refresh := { Interval := 0 }, GracePeriod := 3600 }

/-- A sync pair fixture: the source secret holds different bytes from the
destination key. -/
def clSync : SyncM.MockClient :=
  { K8sSecret := [("ns-a", [("secret-a", [("key-a", [1, 2])])])],
    SecretManagerSecret := [("project-1", [("gsm-token", [3, 4])])] }

/-- The sync spec for `clSync`. -/
def specSync : SecretSyncSpec :=
  { Source := { Project := "project-1", Secret := "gsm-token" },
    Destination := { Namespace := "ns-a", Secret := "secret-a", Key := "key-a" } }

/-- A cron state with one triggered and one untriggered entry. -/
def cronMixed : Cron :=
  ⟨[("a", ⟨1, true, "@hourly"⟩), ("b", ⟨2, false, "@daily"⟩)]⟩

/-- The secret stored in `clRefresh`. -/
def sRefresh : Rot.Secret :=
  ⟨[("1", ⟨0, [1], .ENABLED⟩)],
   [("project", "project-1"), ("service-account", "service-foo"), ("v1", "key_id-1")]⟩

/-- The secret stored in `clMulti`. -/
def sMulti : Rot.Secret :=
  ⟨[("1", ⟨0, [1], .ENABLED⟩), ("2", ⟨7, [2], .ENABLED⟩),
    ("3", ⟨14, [3], .ENABLED⟩), ("4", ⟨21, [4], .ENABLED⟩)],
   [("project", "project-1"), ("service-account", "service-foo"),
    ("v1", "key_id-1"), ("v2", "key_id-2"), ("v3", "key_id-3"), ("v4", "key_id-4")]⟩

/-- The store produced by the deactivation pass on `clMulti` at time 22. -/
def clMultiAfter : Rot.MockClient :=
  match rotMock.Deactivate clMulti specMulti 22 with
  | .ok c => c
  | .error _ => clMulti

/-! ## Association-list map lemmas -/

theorem SMap.find?_insert_self {α : Type} (m : SMap α) (k : String) (v : α) :
    (m.insert k v).find? k = some v := by
  induction m with
  | nil => simp [SMap.insert, SMap.find?]
  | cons kv m ih =>
    obtain ⟨k', v'⟩ := kv
    by_cases h : k' = k
    · simp [SMap.insert, SMap.find?, h]
    · simp [SMap.insert, SMap.find?, h, ih, Ne.symm h]

theorem SMap.find?_insert_ne {α : Type} (m : SMap α) (k k' : String) (v : α)
    (h : k' ≠ k) : (m.insert k v).find? k' = m.find? k' := by
  induction m with
  | nil => simp [SMap.insert, SMap.find?, h]
  | cons kv m ih =>
    obtain ⟨k₀, v₀⟩ := kv
    by_cases h₀ : k₀ = k
    · subst h₀
      simp [SMap.insert, SMap.find?, h]
    · by_cases h₁ : k' = k₀ <;> simp [SMap.insert, SMap.find?, h₀, h₁, ih]

theorem SMap.find?_erase_self {α : Type} (m : SMap α) (k : String) :
    (m.erase k).find? k = none := by
  induction m with
  | nil => simp [SMap.erase, SMap.find?]
  | cons kv m ih =>
    obtain ⟨k₀, v₀⟩ := kv
    by_cases h₀ : k₀ = k
    · simp [SMap.erase, h₀, ih]
    · simp [SMap.erase, SMap.find?, h₀, ih, Ne.symm h₀]

theorem SMap.find?_erase_ne {α : Type} (m : SMap α) (k k' : String)
    (h : k' ≠ k) : (m.erase k).find? k' = m.find? k' := by
  induction m with
  | nil => simp [SMap.erase, SMap.find?]
  | cons kv m ih =>
    obtain ⟨k₀, v₀⟩ := kv
    by_cases h₀ : k₀ = k
    · subst h₀
      simp [SMap.erase, SMap.find?, h, ih]
    · by_cases h₁ : k' = k₀ <;> simp [SMap.erase, SMap.find?, h₀, h₁, ih]

theorem SMap.length_insert_of_find?_eq_none {α : Type} (m : SMap α)
    (k : String) (v : α) (h : m.find? k = none) :
    (m.insert k v).length = m.length + 1 := by
  induction m with
  | nil => simp [SMap.insert]
  | cons kv m ih =>
    obtain ⟨k₀, v₀⟩ := kv
    simp only [SMap.find?] at h
    by_cases h₀ : k = k₀
    · simp [h₀] at h
    · simp only [h₀, if_false] at h
      have h₀' : k₀ ≠ k := Ne.symm h₀
      simp [SMap.insert, h₀', ih h]

theorem SMap.insert_self_of_find?_eq_some {α : Type} (m : SMap α)
    (k : String) (v : α) (h : m.find? k = some v) : m.insert k v = m := by
  induction m with
  | nil => simp [SMap.find?] at h
  | cons kv m ih =>
    obtain ⟨k₀, v₀⟩ := kv
    simp only [SMap.find?] at h
    by_cases h₀ : k = k₀
    · subst h₀
      simp at h
      simp [SMap.insert, h]
    · have h₀' : k₀ ≠ k := Ne.symm h₀
      simp only [h₀, if_false] at h
      simp [SMap.insert, h₀', ih h]

/-! ## Supporting lemmas for the sync controller -/

namespace SyncM

theorem MockClient.sm_of_upsert (cl cl1 : MockClient) (ns id key : String) (data : Bytes)
    (h : cl.UpsertKubernetesSecret ns id key data = .ok cl1) :
    cl1.SecretManagerSecret = cl.SecretManagerSecret := by
  cases hns : cl.K8sSecret.find? ns with
  | none =>
    simp only [MockClient.UpsertKubernetesSecret, hns] at h
    exact Except.noConfusion h
  | some secrets =>
    simp only [MockClient.UpsertKubernetesSecret, hns, Except.ok.injEq] at h
    subst h
    rfl

theorem MockClient.ns_exists_of_get (cl : MockClient) (ns id key : String) (v : Bytes)
    (h : cl.GetKubernetesSecretValue ns id key = .ok v) :
    ∃ secrets, cl.K8sSecret.find? ns = some secrets := by
  cases hns : cl.K8sSecret.find? ns with
  | none =>
    simp only [MockClient.GetKubernetesSecretValue, hns] at h
    exact Except.noConfusion h
  | some secrets => exact ⟨secrets, rfl⟩

theorem MockClient.upsert_ok (cl : MockClient) (ns id key : String) (data : Bytes)
    (secrets : SMap (SMap Bytes)) (hns : cl.K8sSecret.find? ns = some secrets) :
    cl.UpsertKubernetesSecret ns id key data =
      .ok { cl with K8sSecret :=
        cl.K8sSecret.insert ns (secrets.insert id (((secrets.find? id).getD []).insert key data)) } := by
  simp only [MockClient.UpsertKubernetesSecret, hns]

theorem MockClient.get_after_upsert (cl cl1 : MockClient) (ns id key : String) (data : Bytes)
    (h : cl.UpsertKubernetesSecret ns id key data = .ok cl1) :
    cl1.GetKubernetesSecretValue ns id key = .ok data := by
  cases hns : cl.K8sSecret.find? ns with
  | none =>
    simp only [MockClient.UpsertKubernetesSecret, hns] at h
    exact Except.noConfusion h
  | some secrets =>
    simp only [MockClient.UpsertKubernetesSecret, hns, Except.ok.injEq] at h
    subst h
    simp only [MockClient.GetKubernetesSecretValue, SMap.find?_insert_self]

theorem MockClient.get_sm_congr (cl cl1 : MockClient)
    (h : cl1.SecretManagerSecret = cl.SecretManagerSecret) (project id : String) :
    cl1.GetSecretManagerSecretValue project id = cl.GetSecretManagerSecretValue project id := by
  unfold MockClient.GetSecretManagerSecretValue
  rw [h]

end SyncM

/-- C10: a sync pass never modifies the remote Secret Manager state: on every
path of `Sync` (no-op, patch, creation, or error) the resulting client's
`SecretManagerSecret` map is the original one. -/
theorem Sync_never_touches_secret_manager (cl : SyncM.MockClient) (spec : SecretSyncSpec) :
    ((SecretSyncController.Sync cl spec).2).SecretManagerSecret = cl.SecretManagerSecret := by
  unfold SecretSyncController.Sync
  cases hsm : cl.GetSecretManagerSecretValue spec.Source.Project spec.Source.Secret with
  | error e => rfl
  | ok src =>
    cases hk : cl.GetKubernetesSecretValue spec.Destination.Namespace spec.Destination.Secret
        spec.Destination.Key with
    | error e => rfl
    | ok dest =>
      by_cases heq : src = dest
      · simp [heq]
      · simp only [heq, if_neg, if_false]
        cases hup : cl.UpsertKubernetesSecret spec.Destination.Namespace
            spec.Destination.Secret spec.Destination.Key src with
        | error e => rfl
        | ok cl1 =>
          simpa using SyncM.MockClient.sm_of_upsert cl cl1 _ _ _ _ hup

/-- C7: `Sync` is idempotent. When the source bytes equal the destination
bytes it returns `false` and leaves the client untouched; when they differ it
writes the source bytes through (creating the destination secret if absent),
returns `true`, and an immediate second `Sync` on the resulting state returns
`false` without any further write. -/
theorem Sync_idempotent (cl : SyncM.MockClient) (spec : SecretSyncSpec) (src dest : Bytes)
    (hsrc : cl.GetSecretManagerSecretValue spec.Source.Project spec.Source.Secret = .ok src)
    (hdest : cl.GetKubernetesSecretValue spec.Destination.Namespace spec.Destination.Secret
      spec.Destination.Key = .ok dest) :
    (src = dest → SecretSyncController.Sync cl spec = (.ok false, cl)) ∧
    (src ≠ dest → ∃ cl1 : SyncM.MockClient,
      cl.UpsertKubernetesSecret spec.Destination.Namespace spec.Destination.Secret
        spec.Destination.Key src = .ok cl1 ∧
      SecretSyncController.Sync cl spec = (.ok true, cl1) ∧
      cl1.GetKubernetesSecretValue spec.Destination.Namespace spec.Destination.Secret
        spec.Destination.Key = .ok src ∧
      SecretSyncController.Sync cl1 spec = (.ok false, cl1)) := by
  constructor
  · intro heq
    subst heq
    simp [SecretSyncController.Sync, hsrc, hdest]
  · intro hne
    obtain ⟨secrets, hns⟩ := SyncM.MockClient.ns_exists_of_get cl _ _ _ dest hdest
    have hup := SyncM.MockClient.upsert_ok cl spec.Destination.Namespace
      spec.Destination.Secret spec.Destination.Key src secrets hns
    refine ⟨_, hup, ?_, ?_, ?_⟩
    · simp only [SecretSyncController.Sync, hsrc, hdest, if_neg hne, hup]
    · exact SyncM.MockClient.get_after_upsert cl _ _ _ _ _ hup
    · have hsm1 := SyncM.MockClient.sm_of_upsert cl _ _ _ _ _ hup
      have hget1 := SyncM.MockClient.get_after_upsert cl _ _ _ _ _ hup
      have hsrc1 := SyncM.MockClient.get_sm_congr cl _ hsm1 spec.Source.Project spec.Source.Secret
      simp [SecretSyncController.Sync, hsrc1, hsrc, hget1]

/-- C7 witness: on the concrete fixture the source and destination differ, so
one `Sync` writes and a second `Sync` is a no-op. -/
theorem Sync_idempotent_witness :
    ∃ cl1 : SyncM.MockClient,
      clSync.UpsertKubernetesSecret "ns-a" "secret-a" "key-a" [3, 4] = .ok cl1 ∧
      SecretSyncController.Sync clSync specSync = (.ok true, cl1) ∧
      cl1.GetKubernetesSecretValue "ns-a" "secret-a" "key-a" = .ok [3, 4] ∧
      SecretSyncController.Sync cl1 specSync = (.ok false, cl1) :=
  (Sync_idempotent clSync specSync [3, 4] [1, 2] (by decide) (by decide)).2 (by decide)

/-! ## Supporting lemmas for the cron scheduler -/

theorem SMap.find?_map_value {α β : Type} (m : SMap α) (f : α → β) (k : String) :
    SMap.find? (m.map (fun kv => (kv.1, f kv.2))) k = (m.find? k).map f := by
  induction m with
  | nil => simp [SMap.find?]
  | cons kv m ih =>
    obtain ⟨k₀, v₀⟩ := kv
    by_cases h : k = k₀ <;> simp [SMap.find?, h, ih]

theorem SMap.mem_keys_of_mem_filter_keys {α : Type} (m : SMap α) (p : String × α → Bool)
    (k : String) (h : k ∈ (m.filter p).map Prod.fst) : k ∈ m.keys := by
  obtain ⟨kv, hmem, hk⟩ := List.mem_map.mp h
  exact hk ▸ List.mem_map_of_mem Prod.fst (List.mem_of_mem_filter hmem)

theorem SMap.mem_filter_keys_iff {α : Type} (m : SMap α) (p : String × α → Bool)
    (k : String) (hnd : m.NodupKeys) :
    k ∈ (m.filter p).map Prod.fst ↔ ∃ v, m.find? k = some v ∧ p (k, v) = true := by
  induction m with
  | nil => simp [SMap.find?]
  | cons kv m ih =>
    obtain ⟨k₀, v₀⟩ := kv
    obtain ⟨hk₀, hnd'⟩ := List.nodup_cons.mp hnd
    by_cases h : k = k₀
    · subst h
      have hnotin : ¬ k ∈ (m.filter p).map Prod.fst := fun hmem =>
        hk₀ (SMap.mem_keys_of_mem_filter_keys m p k hmem)
      by_cases hp : p (k, v₀) = true
      · simp [List.filter_cons, hp, SMap.find?]
      · simp [List.filter_cons, hp, SMap.find?, hnotin]
    · have h' : k₀ ≠ k := Ne.symm h
      by_cases hp : p (k₀, v₀) = true <;>
        simp [List.filter_cons, hp, SMap.find?, h, ih hnd']

/-- C9: `QueuedSecrets` returns exactly the identifiers whose `triggered` flag
is set, resets every entry's flag to false, and consequently an immediately
repeated call returns the empty set. -/
theorem QueuedSecrets_returns_and_resets (c : Cron) (hnd : c.secrets.NodupKeys) :
    (∀ k, k ∈ (Cron.QueuedSecrets c).1 ↔
      ∃ st, c.secrets.find? k = some st ∧ st.triggered = true) ∧
    (∀ k, (Cron.QueuedSecrets c).2.secrets.find? k =
      (c.secrets.find? k).map (fun st => { st with triggered := false })) ∧
    (Cron.QueuedSecrets (Cron.QueuedSecrets c).2).1 = [] := by
  refine ⟨?_, ?_, ?_⟩
  · intro k
    exact SMap.mem_filter_keys_iff c.secrets (fun kv => kv.2.triggered) k hnd
  · intro k
    exact SMap.find?_map_value c.secrets (fun st => { st with triggered := false }) k
  · simp only [Cron.QueuedSecrets, List.map_eq_nil_iff]
    rw [List.filter_eq_nil_iff]
    intro kv hmem
    obtain ⟨kv₀, _, hkv⟩ := List.mem_map.mp hmem
    subst hkv
    simp

/-- C9 witness: on a two-entry cron state with one triggered entry, the call
returns exactly that entry and a second call returns nothing. -/
theorem QueuedSecrets_returns_and_resets_witness :
    ("a" ∈ (Cron.QueuedSecrets cronMixed).1 ↔
      ∃ st, cronMixed.secrets.find? "a" = some st ∧ st.triggered = true) ∧
    (Cron.QueuedSecrets (Cron.QueuedSecrets cronMixed).2).1 = [] :=
  ⟨(QueuedSecrets_returns_and_resets cronMixed (by decide)).1 "a",
   (QueuedSecrets_returns_and_resets cronMixed (by decide)).2.2⟩

/-- C2: the source does not consult the cron scheduler inside `ShouldRefresh`
(its cron branch is an empty TODO). On a cron-strategy spec whose scheduler
entry has been triggered, and whose version 1 exists, `ShouldRefresh` still
returns false at any time, even though `QueuedSecrets` reports the spec as
queued. -/
theorem ShouldRefresh_ignores_cron_trigger :
    (Cron.QueuedSecrets cronTriggered).1 = [specCron.String] ∧
    rotMock.ShouldRefresh clGrace specCron 1000000 = .ok false := by
  constructor
  · rfl
  · decide

/-- C8: the rotation-config validation of the source does not enforce the
"exactly one refresh strategy" rule. The current `Validate` accepts a spec
with a zero interval and an empty cron (no strategy at all), while the legacy
variant (which has no cron field) rejects every zero-interval spec, so a
cron-only spec cannot pass it either. -/
theorem Validate_does_not_enforce_refresh_strategy :
    RotatedSecretConfig.Validate ⟨[specNoStrategy]⟩ = .ok () ∧
    specNoStrategy.Refresh.Interval = 0 ∧ specNoStrategy.Refresh.Cron = "" ∧
    specNoStrategy.Project = "project-1" ∧ specNoStrategy.Secret = "secret-1" ∧
    specNoStrategy.SecretType.TypeStr = "serviceAccountKey" ∧
    Legacy.RotatedSecretConfig.Validate ⟨[legacySpecNoInterval]⟩ =
      .error "Missing <refresh strategy> for rotated secret: SecretManager:/projects/project-1/secrets/secret-1." := by
  refine ⟨rfl, rfl, rfl, rfl, rfl, rfl, ?_⟩
  decide

/-! ## Supporting lemmas for the rotator -/

theorem Rot.MockClient.getCreateTime_of_validate (cl : Rot.MockClient)
    (project id version : String)
    (h : cl.ValidateSecretVersion project id version = .ok ()) :
    ∃ ct, cl.GetCreateTime project id version = .ok ct := by
  cases hsec : cl.getSecret? project id with
  | none =>
    simp only [Rot.MockClient.ValidateSecretVersion, hsec] at h
    exact Except.noConfusion h
  | some s =>
    cases hver : s.Versions.find? (s.resolve version) with
    | none =>
      simp only [Rot.MockClient.ValidateSecretVersion, hsec, hver] at h
      exact Except.noConfusion h
    | some ver =>
      exact ⟨ver.CreateTime, by simp only [Rot.MockClient.GetCreateTime, hsec, hver]⟩

/-- C1: with version `N` existing, `ShouldDeactivate` returns false (with no
error) when version `N+1` does not exist, and otherwise returns true exactly
when `now` is strictly after `createTime(N+1) + gracePeriod` — in particular
false when `now` equals that instant. -/
theorem ShouldDeactivate_grace_boundary (r : SecretRotator) (cl : Rot.MockClient)
    (spec : RotatedSecretSpec) (version : String) (n : Nat) (now : GoTime)
    (hparse : Atoi version = n)
    (hv : cl.ValidateSecretVersion spec.Project spec.Secret version = .ok ()) :
    (∀ msg, cl.ValidateSecretVersion spec.Project spec.Secret (toString (n + 1)) =
        .error (.notFound msg) →
      r.ShouldDeactivate cl spec version now = .ok false) ∧
    (cl.ValidateSecretVersion spec.Project spec.Secret (toString (n + 1)) = .ok () →
      ∃ ct, cl.GetCreateTime spec.Project spec.Secret (toString (n + 1)) = .ok ct ∧
        r.ShouldDeactivate cl spec version now = .ok (decide (now > ct + spec.GracePeriod))) := by
  constructor
  · intro msg hmsg
    simp only [SecretRotator.ShouldDeactivate, hparse, hv, hmsg, GErr.isNotFound, if_true]
  · intro hok
    obtain ⟨ct, hct⟩ := Rot.MockClient.getCreateTime_of_validate cl _ _ _ hok
    refine ⟨ct, hct, ?_⟩
    simp only [SecretRotator.ShouldDeactivate, hparse, hv, hok, hct]
    by_cases hgt : now > ct + spec.GracePeriod
    · simp [hgt]
    · simp [hgt]

/-- C1 witness: on `clGrace` (versions 1 and 2, `createTime(2) = 100`, grace
10), deciding version 1 at time 110 follows the strict-after comparison. -/
theorem ShouldDeactivate_grace_boundary_witness :
    ∃ ct, clGrace.GetCreateTime specGrace.Project specGrace.Secret (toString (1 + 1)) = .ok ct ∧
      rotMock.ShouldDeactivate clGrace specGrace "1" 110 =
        .ok (decide ((110 : GoTime) > ct + specGrace.GracePeriod)) :=
  (ShouldDeactivate_grace_boundary rotMock clGrace specGrace "1" 1 110 (by decide)
    (by decide)).2 (by decide)

/-- C3: `ShouldRefresh` treats a missing version 1 as a bootstrap signal
(returns true with no error), and with version 1 present and an interval
strategy it returns true exactly when `now` is strictly after
`createTime(latest) + interval`. -/
theorem ShouldRefresh_bootstrap_and_interval (r : SecretRotator) (cl : Rot.MockClient)
    (spec : RotatedSecretSpec) (now : GoTime) :
    ((∀ s, cl.getSecret? spec.Project spec.Secret = some s →
        s.Versions.find? (s.resolve "1") = none) →
      r.ShouldRefresh cl spec now = .ok true) ∧
    (cl.ValidateSecretVersion spec.Project spec.Secret "1" = .ok () →
      spec.Refresh.Interval ≠ 0 →
      ∀ ct, cl.GetCreateTime spec.Project spec.Secret "latest" = .ok ct →
        r.ShouldRefresh cl spec now = .ok (decide (now > ct + spec.Refresh.Interval))) := by
  constructor
  · intro habs
    cases hsec : cl.getSecret? spec.Project spec.Secret with
    | none =>
      simp only [SecretRotator.ShouldRefresh, Rot.MockClient.ValidateSecretVersion, hsec,
        GErr.isNotFound, if_true]
    | some s =>
      simp only [SecretRotator.ShouldRefresh, Rot.MockClient.ValidateSecretVersion, hsec,
        habs s hsec, GErr.isNotFound, if_true]
  · intro hv hint ct hct
    simp only [SecretRotator.ShouldRefresh, hv, hct, if_pos hint]
    by_cases hgt : now > ct + spec.Refresh.Interval
    · simp [hgt]
    · simp [hgt]

/-- C3 witness: on `clGrace` (version 1 exists, latest created at 100,
interval 50), refreshing at time 160 follows the strict-after comparison. -/
theorem ShouldRefresh_bootstrap_and_interval_witness :
    rotMock.ShouldRefresh clGrace specGrace 160 =
      .ok (decide ((160 : GoTime) > 100 + specGrace.Refresh.Interval)) :=
  (ShouldRefresh_bootstrap_and_interval rotMock clGrace specGrace 160).2
    (by decide) (by decide) 100 (by decide)

/-- C5: when the provisioner's revocation fails for a version, that iteration
of the `Deactivate` loop leaves the client unchanged — the version's store
state and its `v<N>` label survive — and the loop continues over the
remaining label keys on the unchanged state. -/
theorem Deactivate_provisioner_failure_skips (r : SecretRotator) (spec : RotatedSecretSpec)
    (now : GoTime) (labels : SMap String) (cl : Rot.MockClient) (key val : String)
    (rest : List (String × String)) (p : SecretProvisioner) (e : GErr)
    (hp : r.Provisioners.find? spec.SecretType.TypeStr = some p)
    (hfail : p.Deactivate labels (versionOfKey key) = .error e) :
    r.deactivateStep spec now labels cl key = cl ∧
    List.foldl (fun c kv => r.deactivateStep spec now labels c kv.1) cl ((key, val) :: rest) =
      List.foldl (fun c kv => r.deactivateStep spec now labels c kv.1) cl rest := by
  have hstep : r.deactivateStep spec now labels cl key = cl := by
    unfold SecretRotator.deactivateStep
    by_cases hm : isVersionLabelKey key = true
    · simp only [hm, Bool.not_true, Bool.false_eq_true, if_false]
      split
      · rfl
      · simp [hp, hfail]
    · simp [hm]
  exact ⟨hstep, by simp [List.foldl_cons, hstep]⟩

/-- C5 witness: with a failing provisioner, the step on label `v1` of
`clGrace` is a no-op and the loop reduces to the remaining keys. -/
theorem Deactivate_provisioner_failure_skips_witness :
    rotFail.deactivateStep specGrace 111 [("v1", "key_id-1")] clGrace "v1" = clGrace ∧
    List.foldl (fun c (kv : String × String) =>
        rotFail.deactivateStep specGrace 111 [("v1", "key_id-1")] c kv.1)
        clGrace [("v1", "key_id-1")] =
      List.foldl (fun c (kv : String × String) =>
        rotFail.deactivateStep specGrace 111 [("v1", "key_id-1")] c kv.1)
        clGrace [] :=
  Deactivate_provisioner_failure_skips rotFail specGrace 111 [("v1", "key_id-1")] clGrace
    "v1" "key_id-1" [] failingProvisioner (.other "revocation failed") (by rfl) (by rfl)

theorem Rot.MockClient.getSecretLabels_of_getSecret (cl : Rot.MockClient)
    (project id : String) (s : Rot.Secret)
    (hs : cl.getSecret? project id = some s) :
    cl.GetSecretLabels project id = .ok s.Labels := by
  simp only [Rot.MockClient.GetSecretLabels, hs]

theorem Rot.MockClient.UpsertSecret_eq (cl : Rot.MockClient) (project id : String)
    (data : Bytes) (secrets : SMap Rot.Secret) (s : Rot.Secret)
    (hproj : cl.Secrets.find? project = some secrets)
    (hsec : secrets.find? id = some s) :
    cl.UpsertSecret project id data =
      .ok (toString (s.Versions.length + 1),
        ⟨cl.Secrets.insert project (secrets.insert id
          { s with Versions := s.Versions.insert (toString (s.Versions.length + 1)) (Rot.Version.mk 0 data .ENABLED) })⟩) := by
  simp only [Rot.MockClient.UpsertSecret, hproj, hsec, Option.getD_some]

theorem Rot.MockClient.UpsertSecretLabel_eq (cl : Rot.MockClient)
    (project id key val : String) (s : Rot.Secret)
    (hs : cl.getSecret? project id = some s) :
    cl.UpsertSecretLabel project id key val =
      .ok (cl.setSecret project id { s with Labels := s.Labels.insert key val }) := by
  simp only [Rot.MockClient.UpsertSecretLabel, hs]

theorem Rot.MockClient.getSecret?_mk_insert (tail : SMap (SMap Rot.Secret))
    (project id : String) (secrets : SMap Rot.Secret) (s' : Rot.Secret) :
    (Rot.MockClient.mk (tail.insert project (secrets.insert id s'))).getSecret? project id =
      some s' := by
  simp [Rot.MockClient.getSecret?, SMap.find?_insert_self]

/-- C4: whenever `Refresh` reports a refresh with no error, the store holds
exactly one new version — numbered one past the previous count, carrying the
bytes minted by the provisioner's `CreateNew`, in state ENABLED — the label
map gains `v<newVersion> -> externalId` from that same `CreateNew` call, and
every label present before is still present with its old value. -/
theorem Refresh_publishes_version (r : SecretRotator) (cl cl2 : Rot.MockClient)
    (spec : RotatedSecretSpec) (now : GoTime) (s : Rot.Secret)
    (hs : cl.getSecret? spec.Project spec.Secret = some s)
    (hfreshV : s.Versions.find? (toString (s.Versions.length + 1)) = none)
    (hfreshL : s.Labels.find? ("v" ++ toString (s.Versions.length + 1)) = none)
    (hr : r.Refresh cl spec now = .ok (true, cl2)) :
    ∃ p newId newData,
      r.Provisioners.find? spec.SecretType.TypeStr = some p ∧
      p.CreateNew (labelsUnion s.Labels spec.SecretType.Labels) = .ok (newId, newData) ∧
      ∃ s2, cl2.getSecret? spec.Project spec.Secret = some s2 ∧
        s2.Versions.find? (toString (s.Versions.length + 1)) =
          some { CreateTime := 0, Data := newData, State := .ENABLED } ∧
        s2.Versions.length = s.Versions.length + 1 ∧
        (∀ k, k ≠ toString (s.Versions.length + 1) →
          s2.Versions.find? k = s.Versions.find? k) ∧
        s2.Labels.find? ("v" ++ toString (s.Versions.length + 1)) = some newId ∧
        (∀ k v, s.Labels.find? k = some v → s2.Labels.find? k = some v) := by
  obtain ⟨secrets, hproj, hsec⟩ : ∃ secrets, cl.Secrets.find? spec.Project = some secrets ∧
      secrets.find? spec.Secret = some s := by
    cases hproj : cl.Secrets.find? spec.Project with
    | none => simp [Rot.MockClient.getSecret?, hproj] at hs
    | some secrets =>
      refine ⟨secrets, rfl, ?_⟩
      simpa [Rot.MockClient.getSecret?, hproj] using hs
  unfold SecretRotator.Refresh at hr
  cases hsr : r.ShouldRefresh cl spec now with
  | error e =>
    simp only [hsr] at hr
    exact Except.noConfusion hr
  | ok b =>
    simp only [hsr] at hr
    cases b with
    | false => simp at hr
    | true =>
      simp only [Bool.not_true, Bool.false_eq_true, if_false,
        Rot.MockClient.getSecretLabels_of_getSecret cl _ _ s hs] at hr
      cases hp : r.Provisioners.find? spec.SecretType.TypeStr with
      | none =>
        simp only [hp] at hr
        exact Except.noConfusion hr
      | some p =>
        simp only [hp] at hr
        cases hcn : p.CreateNew (labelsUnion s.Labels spec.SecretType.Labels) with
        | error e =>
          simp only [hcn] at hr
          exact Except.noConfusion hr
        | ok pair =>
          obtain ⟨newId, newData⟩ := pair
          simp only [hcn,
            Rot.MockClient.UpsertSecret_eq cl _ _ newData secrets s hproj hsec] at hr
          rw [Rot.MockClient.UpsertSecretLabel_eq _ spec.Project spec.Secret
            ("v" ++ toString (s.Versions.length + 1)) newId
            ({ s with Versions := s.Versions.insert (toString (s.Versions.length + 1)) (Rot.Version.mk 0 newData .ENABLED) })
            (Rot.MockClient.getSecret?_mk_insert _ _ _ _ _)] at hr
          simp only [Rot.MockClient.setSecret, SMap.find?_insert_self, Except.ok.injEq,
            Prod.mk.injEq, true_and] at hr
          subst hr
          refine ⟨p, newId, newData, rfl, hcn, ?_⟩
          refine ⟨_, Rot.MockClient.getSecret?_mk_insert _ _ _ _ _, ?_, ?_, ?_, ?_, ?_⟩
          · exact SMap.find?_insert_self _ _ _
          · exact SMap.length_insert_of_find?_eq_none _ _ _ hfreshV
          · intro k hk
            exact SMap.find?_insert_ne _ _ _ _ hk
          · exact SMap.find?_insert_self _ _ _
          · intro k v hkv
            have hk : k ≠ "v" ++ toString (s.Versions.length + 1) := by
              intro he
              rw [he, hfreshL] at hkv
              exact Option.noConfusion hkv
            rw [SMap.find?_insert_ne _ _ _ _ hk]
            exact hkv

/-- C4 witness: refreshing the one-version fixture at time 100 publishes
version 2 with the provisioner's bytes and label. -/
theorem Refresh_publishes_version_witness :
    ∃ p newId newData,
      rotMock.Provisioners.find? specGrace.SecretType.TypeStr = some p ∧
      p.CreateNew (labelsUnion sRefresh.Labels specGrace.SecretType.Labels) =
        .ok (newId, newData) ∧
      ∃ s2, clRefreshAfter.getSecret? specGrace.Project specGrace.Secret = some s2 ∧
        s2.Versions.find? (toString (sRefresh.Versions.length + 1)) =
          some { CreateTime := 0, Data := newData, State := .ENABLED } ∧
        s2.Versions.length = sRefresh.Versions.length + 1 ∧
        (∀ k, k ≠ toString (sRefresh.Versions.length + 1) →
          s2.Versions.find? k = sRefresh.Versions.find? k) ∧
        s2.Labels.find? ("v" ++ toString (sRefresh.Versions.length + 1)) = some newId ∧
        (∀ k v, sRefresh.Labels.find? k = some v → s2.Labels.find? k = some v) :=
  Refresh_publishes_version rotMock clRefresh clRefreshAfter specGrace 100 sRefresh
    (by decide) (by decide) (by decide) (by decide)

/-! ## String and digit facts for the deactivation-loop analysis -/

theorem digitChar_isDigit : ∀ m, m < 10 → (Nat.digitChar m).isDigit = true := by decide

theorem toDigitsCore_all_digits (fuel : Nat) :
    ∀ (n : Nat) (acc : List Char), (∀ c ∈ acc, c.isDigit = true) →
      ∀ c ∈ Nat.toDigitsCore 10 fuel n acc, c.isDigit = true := by
  induction fuel with
  | zero => exact fun n acc hacc c hc => hacc c hc
  | succ fuel ih =>
    intro n acc hacc c hc
    simp only [Nat.toDigitsCore] at hc
    have hdig : ∀ c' ∈ Nat.digitChar (n % 10) :: acc, c'.isDigit = true := by
      intro c' hc'
      rcases List.mem_cons.mp hc' with h | h
      · exact h ▸ digitChar_isDigit (n % 10) (Nat.mod_lt n (by decide))
      · exact hacc c' h
    by_cases h : n / 10 = 0
    · rw [if_pos h] at hc
      exact hdig c hc
    · rw [if_neg h] at hc
      exact ih (n / 10) (Nat.digitChar (n % 10) :: acc) hdig c hc

theorem toString_nat_all_digits (n : Nat) : ∀ c ∈ (toString n).data, c.isDigit = true := by
  have hd : (toString n).data = Nat.toDigitsCore 10 (n + 1) n [] := rfl
  rw [hd]
  exact toDigitsCore_all_digits (n + 1) n [] (by intro c hc; exact absurd hc (List.not_mem_nil c))

theorem ne_latest_of_all_digits (s : String) (h : ∀ c ∈ s.data, c.isDigit = true) :
    s ≠ "latest" := by
  intro he
  subst he
  exact absurd (h 'l' (by decide)) (by decide)

theorem toString_nat_ne_latest (n : Nat) : toString n ≠ "latest" :=
  ne_latest_of_all_digits _ (toString_nat_all_digits n)

theorem isVersionLabelKey_data (k : String) (h : isVersionLabelKey k = true) :
    ∃ rest, k.data = 'v' :: rest ∧ rest ≠ [] ∧ (∀ c ∈ rest, c.isDigit = true) := by
  obtain ⟨data⟩ := k
  cases data with
  | nil => simp [isVersionLabelKey] at h
  | cons c rest =>
    simp only [isVersionLabelKey, Bool.and_eq_true, beq_iff_eq, Bool.not_eq_true',
      List.all_eq_true] at h
    obtain ⟨⟨hc, hne⟩, hall⟩ := h
    subst hc
    refine ⟨rest, rfl, ?_, fun c hc => hall c hc⟩
    intro h0
    subst h0
    simp at hne

theorem versionOfKey_eq (k : String) (rest : List Char) (hdata : k.data = 'v' :: rest) :
    versionOfKey k = String.mk rest := by
  unfold versionOfKey
  rw [hdata]
  rfl

theorem append_versionOfKey (k : String) (h : isVersionLabelKey k = true) :
    "v" ++ versionOfKey k = k := by
  obtain ⟨rest, hdata, _, _⟩ := isVersionLabelKey_data k h
  rw [versionOfKey_eq k rest hdata]
  obtain ⟨data⟩ := k
  simp only at hdata
  subst hdata
  rfl

theorem versionOfKey_ne_latest (k : String) (h : isVersionLabelKey k = true) :
    versionOfKey k ≠ "latest" := by
  obtain ⟨rest, hdata, _, hall⟩ := isVersionLabelKey_data k h
  rw [versionOfKey_eq k rest hdata]
  exact ne_latest_of_all_digits _ (by intro c hc; exact hall c hc)

theorem versionOfKey_inj (k k' : String) (h : isVersionLabelKey k = true)
    (h' : isVersionLabelKey k' = true) (he : versionOfKey k = versionOfKey k') : k = k' := by
  have h1 := append_versionOfKey k h
  have h2 := append_versionOfKey k' h'
  rw [← h1, ← h2, he]

theorem Rot.Secret.resolve_eq_of_ne (s : Rot.Secret) (v : String) (h : v ≠ "latest") :
    s.resolve v = v := by
  simp [Rot.Secret.resolve, h]

/-! ## Localizing the deactivation pass to the one secret it touches -/

theorem SMap.insert_insert_self {α : Type} (m : SMap α) (k : String) (v w : α) :
    (m.insert k v).insert k w = m.insert k w := by
  induction m with
  | nil => simp [SMap.insert]
  | cons kv m ih =>
    obtain ⟨k₀, v₀⟩ := kv
    by_cases h : k₀ = k
    · simp [SMap.insert, h]
    · simp [SMap.insert, h, ih]

theorem Rot.MockClient.setSecret_find?_proj (cl : Rot.MockClient) (project id : String)
    (m : SMap Rot.Secret) (hproj : cl.Secrets.find? project = some m) (s' : Rot.Secret) :
    (cl.setSecret project id s').Secrets.find? project = some (m.insert id s') := by
  simp only [Rot.MockClient.setSecret, hproj, SMap.find?_insert_self]

theorem Rot.MockClient.setSecret_getSecret (cl : Rot.MockClient) (project id : String)
    (m : SMap Rot.Secret) (hproj : cl.Secrets.find? project = some m) (s' : Rot.Secret) :
    (cl.setSecret project id s').getSecret? project id = some s' := by
  simp only [Rot.MockClient.setSecret, hproj, Rot.MockClient.getSecret?,
    SMap.find?_insert_self, Option.bind_some, Option.some_bind]

theorem Rot.MockClient.setSecret_setSecret (cl : Rot.MockClient) (project id : String)
    (m : SMap Rot.Secret) (hproj : cl.Secrets.find? project = some m) (a b : Rot.Secret) :
    (cl.setSecret project id a).setSecret project id b = cl.setSecret project id b := by
  simp only [Rot.MockClient.setSecret, hproj, SMap.find?_insert_self,
    SMap.insert_insert_self]

theorem Rot.MockClient.setSecret_self (cl : Rot.MockClient) (project id : String)
    (s : Rot.Secret) (h : cl.getSecret? project id = some s) :
    cl.setSecret project id s = cl := by
  cases hproj : cl.Secrets.find? project with
  | none => simp [Rot.MockClient.getSecret?, hproj] at h
  | some m =>
    have hsec : m.find? id = some s := by
      simpa [Rot.MockClient.getSecret?, hproj] using h
    simp only [Rot.MockClient.setSecret, hproj,
      SMap.insert_self_of_find?_eq_some m id s hsec,
      SMap.insert_self_of_find?_eq_some cl.Secrets project m hproj]

theorem ShouldDeactivate_localizes (r : SecretRotator) (cl : Rot.MockClient)
    (spec : RotatedSecretSpec) (v : String) (now : GoTime) (s : Rot.Secret)
    (hs : cl.getSecret? spec.Project spec.Secret = some s) :
    r.ShouldDeactivate cl spec v now =
      shouldDeactivateS spec.Project spec.Secret spec.GracePeriod s v now := by
  unfold SecretRotator.ShouldDeactivate shouldDeactivateS
  simp only [Rot.MockClient.ValidateSecretVersion, Rot.MockClient.GetCreateTime, hs]
  cases h1 : s.Versions.find? (s.resolve v) with
  | none => rfl
  | some ver1 =>
    cases h2 : s.Versions.find? (s.resolve (toString (Atoi v + 1))) with
    | none => rfl
    | some nver => rfl

theorem deactivateStep_localizes (r : SecretRotator) (spec : RotatedSecretSpec)
    (now : GoTime) (labels : SMap String) (cl : Rot.MockClient) (key : String)
    (s : Rot.Secret) (m : SMap Rot.Secret)
    (hproj : cl.Secrets.find? spec.Project = some m)
    (hs : cl.getSecret? spec.Project spec.Secret = some s)
    (p : SecretProvisioner)
    (hp : r.Provisioners.find? spec.SecretType.TypeStr = some p)
    (hpd : ∀ l v, p.Deactivate l v = .ok ()) :
    r.deactivateStep spec now labels cl key =
      cl.setSecret spec.Project spec.Secret
        (stepSecret spec.Project spec.Secret spec.GracePeriod now s key) := by
  unfold SecretRotator.deactivateStep stepSecret sdDecision
  by_cases hm : isVersionLabelKey key = true
  · simp only [hm, Bool.not_true, Bool.false_eq_true, if_false]
    rw [ShouldDeactivate_localizes r cl spec (versionOfKey key) now s hs]
    cases hsd : shouldDeactivateS spec.Project spec.Secret spec.GracePeriod s
        (versionOfKey key) now with
    | error e =>
      simp only [Bool.not_false, if_true]
      exact (Rot.MockClient.setSecret_self cl _ _ s hs).symm
    | ok b =>
      cases b with
      | false =>
        simp only [Bool.not_false, if_true]
        exact (Rot.MockClient.setSecret_self cl _ _ s hs).symm
      | true =>
        simp only [Bool.not_true, Bool.false_eq_true, if_false, hp, hpd]
        cases hfv : s.Versions.find? (s.resolve (versionOfKey key)) with
        | none =>
          simp only [Rot.MockClient.DestroySecretVersion, hs, hfv]
          exact (Rot.MockClient.setSecret_self cl _ _ s hs).symm
        | some ver =>
          simp only [Rot.MockClient.DestroySecretVersion, hs, hfv,
            Rot.MockClient.DeleteSecretLabel,
            Rot.MockClient.setSecret_getSecret cl spec.Project spec.Secret m hproj,
            Rot.MockClient.setSecret_setSecret cl spec.Project spec.Secret m hproj]
  · simp only [hm, Bool.not_false, Bool.false_eq_true, if_true]
    exact (Rot.MockClient.setSecret_self cl _ _ s hs).symm

theorem deactivateLoop_localizes (r : SecretRotator) (spec : RotatedSecretSpec)
    (now : GoTime) (labels : SMap String) (p : SecretProvisioner)
    (hp : r.Provisioners.find? spec.SecretType.TypeStr = some p)
    (hpd : ∀ l v, p.Deactivate l v = .ok ())
    (todo : List (String × String)) :
    ∀ (cl : Rot.MockClient) (m : SMap Rot.Secret) (s : Rot.Secret),
      cl.Secrets.find? spec.Project = some m →
      cl.getSecret? spec.Project spec.Secret = some s →
      List.foldl (fun c kv => r.deactivateStep spec now labels c kv.1) cl todo =
        cl.setSecret spec.Project spec.Secret
          (todo.foldl (fun t kv =>
            stepSecret spec.Project spec.Secret spec.GracePeriod now t kv.1) s) := by
  induction todo with
  | nil =>
    intro cl m s hproj hs
    exact (Rot.MockClient.setSecret_self cl _ _ s hs).symm
  | cons kv rest ih =>
    intro cl m s hproj hs
    simp only [List.foldl_cons]
    rw [deactivateStep_localizes r spec now labels cl kv.1 s m hproj hs p hp hpd]
    rw [ih (cl.setSecret spec.Project spec.Secret
        (stepSecret spec.Project spec.Secret spec.GracePeriod now s kv.1))
      (m.insert spec.Secret (stepSecret spec.Project spec.Secret spec.GracePeriod now s kv.1))
      (stepSecret spec.Project spec.Secret spec.GracePeriod now s kv.1)
      (Rot.MockClient.setSecret_find?_proj cl _ _ m hproj _)
      (Rot.MockClient.setSecret_getSecret cl _ _ m hproj _)]
    exact Rot.MockClient.setSecret_setSecret cl _ _ m hproj _ _

/-! ## Secret-level analysis of the deactivation loop -/

theorem VersionsShape.refl' (a : SMap Rot.Version) : VersionsShape a a := fun _ => rfl

theorem VersionsShape.trans' {a b c : SMap Rot.Version}
    (h1 : VersionsShape a b) (h2 : VersionsShape b c) : VersionsShape a c :=
  fun k => (h1 k).trans (h2 k)

theorem VersionsShape.find?_ct {a b : SMap Rot.Version} (h : VersionsShape a b)
    (k : String) :
    (a.find? k).map Rot.Version.CreateTime = (b.find? k).map Rot.Version.CreateTime :=
  h k

theorem shouldDeactivateS_congr (P S : String) (g : GoDuration) (now : GoTime)
    (v : String) (hv : v ≠ "latest") (hnv : toString (Atoi v + 1) ≠ "latest")
    (s₁ s₂ : Rot.Secret) (hsh : VersionsShape s₁.Versions s₂.Versions) :
    shouldDeactivateS P S g s₁ v now = shouldDeactivateS P S g s₂ v now := by
  unfold shouldDeactivateS
  simp only [Rot.Secret.resolve_eq_of_ne s₁ v hv, Rot.Secret.resolve_eq_of_ne s₂ v hv,
    Rot.Secret.resolve_eq_of_ne s₁ _ hnv, Rot.Secret.resolve_eq_of_ne s₂ _ hnv]
  have h1 := hsh v
  have h2 := hsh (toString (Atoi v + 1))
  cases hv2 : s₂.Versions.find? v with
  | none =>
    rw [hv2] at h1
    cases hv1 : s₁.Versions.find? v with
    | none => rfl
    | some x =>
      rw [hv1] at h1
      simp at h1
  | some ver₂ =>
    rw [hv2] at h1
    cases hv1 : s₁.Versions.find? v with
    | none =>
      rw [hv1] at h1
      simp at h1
    | some ver₁ =>
      cases hn2 : s₂.Versions.find? (toString (Atoi v + 1)) with
      | none =>
        rw [hn2] at h2
        cases hn1 : s₁.Versions.find? (toString (Atoi v + 1)) with
        | none => rfl
        | some y =>
          rw [hn1] at h2
          simp at h2
      | some nv₂ =>
        rw [hn2] at h2
        cases hn1 : s₁.Versions.find? (toString (Atoi v + 1)) with
        | none =>
          rw [hn1] at h2
          simp at h2
        | some nv₁ =>
          rw [hn1] at h2
          simp at h2
          simp only [h2]

theorem sdDecision_congr (P S : String) (g : GoDuration) (now : GoTime)
    (v : String) (hv : v ≠ "latest") (hnv : toString (Atoi v + 1) ≠ "latest")
    (s₁ s₂ : Rot.Secret) (hsh : VersionsShape s₁.Versions s₂.Versions) :
    sdDecision P S g s₁ v now = sdDecision P S g s₂ v now := by
  unfold sdDecision
  rw [shouldDeactivateS_congr P S g now v hv hnv s₁ s₂ hsh]

theorem fires_congr (P S : String) (g : GoDuration) (now : GoTime)
    (s₁ s₂ : Rot.Secret) (hsh : VersionsShape s₁.Versions s₂.Versions) (key : String) :
    fires P S g now s₁ key = fires P S g now s₂ key := by
  unfold fires
  by_cases hm : isVersionLabelKey key = true
  · rw [hm]
    simp only [Bool.true_and]
    exact sdDecision_congr P S g now (versionOfKey key) (versionOfKey_ne_latest key hm)
      (toString_nat_ne_latest _) s₁ s₂ hsh
  · rw [Bool.not_eq_true] at hm
    rw [hm]
    simp

theorem sdDecision_true_iff (P S : String) (g : GoDuration) (now : GoTime)
    (s : Rot.Secret) (v : String) (hv : v ≠ "latest")
    (hnv : toString (Atoi v + 1) ≠ "latest") :
    sdDecision P S g s v now = true ↔
      (s.Versions.find? v).isSome ∧
      ∃ nver, s.Versions.find? (toString (Atoi v + 1)) = some nver ∧
        now > nver.CreateTime + g := by
  unfold sdDecision shouldDeactivateS
  simp only [Rot.Secret.resolve_eq_of_ne s v hv, Rot.Secret.resolve_eq_of_ne s _ hnv]
  cases hv1 : s.Versions.find? v with
  | none => simp
  | some ver =>
    cases hn1 : s.Versions.find? (toString (Atoi v + 1)) with
    | none => simp
    | some nver =>
      by_cases hgt : now > nver.CreateTime + g
      · simp [hgt]
      · simp [hgt]

theorem stepSecret_shape (P S : String) (g : GoDuration) (now : GoTime)
    (s₁ : Rot.Secret) (key : String) :
    VersionsShape (stepSecret P S g now s₁ key).Versions s₁.Versions := by
  unfold stepSecret
  by_cases hm : isVersionLabelKey key = true
  · simp only [hm, Bool.not_true, Bool.false_eq_true, if_false]
    cases hsd : sdDecision P S g s₁ (versionOfKey key) now with
    | false =>
      simp only [Bool.not_false, if_true]
      exact VersionsShape.refl' _
    | true =>
      simp only [Bool.not_true, Bool.false_eq_true, if_false]
      cases hfv : s₁.Versions.find? (s₁.resolve (versionOfKey key)) with
      | none => exact VersionsShape.refl' _
      | some ver =>
        intro x
        by_cases hx : x = s₁.resolve (versionOfKey key)
        · subst hx
          simp [SMap.find?_insert_self, hfv]
        · simp [SMap.find?_insert_ne _ _ _ _ hx]
  · simp only [hm, Bool.not_false, Bool.false_eq_true, if_true]
    exact VersionsShape.refl' _

theorem stepSecret_of_not_fires (P S : String) (g : GoDuration) (now : GoTime)
    (s₁ ref : Rot.Secret) (key : String)
    (hsh : VersionsShape s₁.Versions ref.Versions)
    (hf : fires P S g now ref key = false) :
    stepSecret P S g now s₁ key = s₁ := by
  unfold stepSecret
  by_cases hm : isVersionLabelKey key = true
  · have hd : sdDecision P S g s₁ (versionOfKey key) now = false := by
      rw [sdDecision_congr P S g now (versionOfKey key) (versionOfKey_ne_latest key hm)
        (toString_nat_ne_latest _) s₁ ref hsh]
      unfold fires at hf
      rw [hm] at hf
      simpa using hf
    simp [hm, hd]
  · simp [hm]

theorem stepSecret_of_fires (P S : String) (g : GoDuration) (now : GoTime)
    (s₁ ref : Rot.Secret) (key : String)
    (hsh : VersionsShape s₁.Versions ref.Versions)
    (hf : fires P S g now ref key = true) :
    isVersionLabelKey key = true ∧
    ∃ ver, s₁.Versions.find? (versionOfKey key) = some ver ∧
      stepSecret P S g now s₁ key =
        ⟨s₁.Versions.insert (versionOfKey key)
          { ver with State := Rot.SecretVersionState.DESTROYED },
         s₁.Labels.erase key⟩ := by
  unfold fires at hf
  have hf' : isVersionLabelKey key = true ∧
      sdDecision P S g ref (versionOfKey key) now = true := by simpa using hf
  obtain ⟨hm, hdref⟩ := hf'
  have hvlat := versionOfKey_ne_latest key hm
  have hnlat := toString_nat_ne_latest (Atoi (versionOfKey key) + 1)
  have hd : sdDecision P S g s₁ (versionOfKey key) now = true := by
    rw [sdDecision_congr P S g now (versionOfKey key) hvlat hnlat s₁ ref hsh]
    exact hdref
  obtain ⟨hsome, _⟩ := (sdDecision_true_iff P S g now s₁ (versionOfKey key) hvlat hnlat).mp hd
  obtain ⟨ver, hver⟩ := Option.isSome_iff_exists.mp hsome
  refine ⟨hm, ver, hver, ?_⟩
  unfold stepSecret
  simp only [hm, Bool.not_true, Bool.false_eq_true, if_false, hd, Bool.not_false,
    Rot.Secret.resolve_eq_of_ne s₁ _ hvlat, hver, append_versionOfKey key hm]

theorem run_shape (P S : String) (g : GoDuration) (now : GoTime)
    (todo : List (String × String)) :
    ∀ s₁ : Rot.Secret,
      VersionsShape
        ((todo.foldl (fun t kv => stepSecret P S g now t kv.1) s₁).Versions)
        s₁.Versions := by
  induction todo with
  | nil => exact fun s₁ => VersionsShape.refl' _
  | cons kv rest ih =>
    intro s₁
    simp only [List.foldl_cons]
    exact VersionsShape.trans' (ih _) (stepSecret_shape P S g now s₁ kv.1)

theorem run_labels (P S : String) (g : GoDuration) (now : GoTime) (s : Rot.Secret)
    (todo : List (String × String)) :
    ∀ s₁ : Rot.Secret, VersionsShape s₁.Versions s.Versions →
      ∀ k : String,
        ((todo.foldl (fun t kv => stepSecret P S g now t kv.1) s₁).Labels.find? k) =
          if todo.any (fun kv => kv.1 == k && fires P S g now s kv.1) then none
          else s₁.Labels.find? k := by
  induction todo with
  | nil =>
    intro s₁ hsh k
    simp
  | cons kv rest ih =>
    intro s₁ hsh k
    simp only [List.foldl_cons, List.any_cons]
    rcases Bool.eq_false_or_eq_true (fires P S g now s kv.1) with hf | hf
    · obtain ⟨hm, ver, hver, hstep⟩ := stepSecret_of_fires P S g now s₁ s kv.1 hsh hf
      have hsh' := VersionsShape.trans' (stepSecret_shape P S g now s₁ kv.1) hsh
      rw [hstep] at hsh'
      rw [hstep, ih _ hsh' k]
      by_cases hk : kv.1 = k
      · subst hk
        simp only [hf, beq_self_eq_true, Bool.true_and, Bool.and_true, Bool.true_or, if_true]
        split
        · rfl
        · exact SMap.find?_erase_self s₁.Labels kv.1
      · have hk' : (kv.1 == k) = false := by simp [hk]
        simp only [hk', Bool.false_and, Bool.false_or]
        congr 1
        exact SMap.find?_erase_ne s₁.Labels kv.1 k (Ne.symm hk)
    · rw [stepSecret_of_not_fires P S g now s₁ s kv.1 hsh hf]
      rw [ih s₁ hsh k]
      have hhead : (kv.1 == k && fires P S g now s kv.1 ||
          rest.any fun kv => kv.1 == k && fires P S g now s kv.1) =
          rest.any fun kv => kv.1 == k && fires P S g now s kv.1 := by
        rw [hf]
        simp
      simp only [hhead]

theorem run_versions (P S : String) (g : GoDuration) (now : GoTime) (s : Rot.Secret)
    (todo : List (String × String)) :
    ∀ s₁ : Rot.Secret, VersionsShape s₁.Versions s.Versions →
      ∀ x : String,
        ((todo.foldl (fun t kv => stepSecret P S g now t kv.1) s₁).Versions.find? x) =
          if todo.any (fun kv => fires P S g now s kv.1 && (versionOfKey kv.1 == x)) then
            (s₁.Versions.find? x).map
              (fun ver => { ver with State := Rot.SecretVersionState.DESTROYED })
          else s₁.Versions.find? x := by
  induction todo with
  | nil =>
    intro s₁ hsh x
    simp
  | cons kv rest ih =>
    intro s₁ hsh x
    simp only [List.foldl_cons, List.any_cons]
    rcases Bool.eq_false_or_eq_true (fires P S g now s kv.1) with hf | hf
    · obtain ⟨hm, ver, hver, hstep⟩ := stepSecret_of_fires P S g now s₁ s kv.1 hsh hf
      have hsh' := VersionsShape.trans' (stepSecret_shape P S g now s₁ kv.1) hsh
      rw [hstep] at hsh'
      rw [hstep, ih _ hsh' x]
      by_cases hx : versionOfKey kv.1 = x
      · subst hx
        simp only [hf, beq_self_eq_true, Bool.and_true, Bool.true_and, Bool.true_or, if_true,
          hver, SMap.find?_insert_self, Option.map_some']
        split
        · rfl
        · rfl
      · have hx' : (versionOfKey kv.1 == x) = false := by simp [hx]
        simp only [hx', Bool.and_false, Bool.false_or]
        rw [SMap.find?_insert_ne _ _ _ _ (Ne.symm hx)]
    · rw [stepSecret_of_not_fires P S g now s₁ s kv.1 hsh hf]
      rw [ih s₁ hsh x]
      have hhead : (fires P S g now s kv.1 && (versionOfKey kv.1 == x) ||
          rest.any fun kv => fires P S g now s kv.1 && (versionOfKey kv.1 == x)) =
          rest.any fun kv => fires P S g now s kv.1 && (versionOfKey kv.1 == x) := by
        rw [hf]
        simp
      simp only [hhead]

theorem SMap.find?_isSome_insert {α : Type} (m : SMap α) (k k' : String) (v : α)
    (h : (m.find? k).isSome = true) : ((m.insert k' v).find? k).isSome = true := by
  by_cases hk : k = k'
  · subst hk
    simp [SMap.find?_insert_self]
  · rw [SMap.find?_insert_ne m k' k v hk]
    exact h

theorem labelsUnion_isSome_mono (adds : List (String × String)) :
    ∀ (m : SMap String) (k : String), (m.find? k).isSome = true →
      ((labelsUnion m adds).find? k).isSome = true := by
  induction adds with
  | nil => exact fun m k h => h
  | cons a ads ih =>
    intro m k h
    unfold labelsUnion at ih ⊢
    simp only [List.foldl_cons]
    exact ih (m.insert a.1 a.2) k (SMap.find?_isSome_insert m k a.1 a.2 h)

theorem SMap.exists_mem_of_find?_isSome {α : Type} (m : SMap α) (k : String)
    (h : (m.find? k).isSome = true) : ∃ v, (k, v) ∈ m := by
  induction m with
  | nil => simp [SMap.find?] at h
  | cons kv m ih =>
    obtain ⟨k₀, v₀⟩ := kv
    by_cases hk : k = k₀
    · subst hk
      exact ⟨v₀, List.mem_cons_self _ _⟩
    · simp only [SMap.find?, hk, if_false] at h
      obtain ⟨v, hv⟩ := ih h
      exact ⟨v, List.mem_cons_of_mem _ hv⟩

theorem labelsUnion_find?_subset (adds : List (String × String)) :
    ∀ (m : SMap String) (k : String), ((labelsUnion m adds).find? k).isSome = true →
      (m.find? k).isSome = true ∨ ∃ kv ∈ adds, kv.1 = k := by
  induction adds with
  | nil => exact fun m k h => Or.inl h
  | cons a ads ih =>
    intro m k h
    unfold labelsUnion at ih h
    simp only [List.foldl_cons] at h
    rcases ih (m.insert a.1 a.2) k h with h' | h'
    · by_cases hk : k = a.1
      · exact Or.inr ⟨a, List.mem_cons_self _ _, hk.symm⟩
      · rw [SMap.find?_insert_ne m a.1 k a.2 hk] at h'
        exact Or.inl h'
    · obtain ⟨kv, hmem, hkv⟩ := h'
      exact Or.inr ⟨kv, List.mem_cons_of_mem _ hmem, hkv⟩

theorem typeLabels_not_version_key (t : RotatedSecretType) (k : String)
    (hm : isVersionLabelKey k = true) : ¬ ∃ kv ∈ t.Labels, kv.1 = k := by
  rintro ⟨kv, hmem, hkv⟩
  cases hsvc : t.ServiceAccountKey with
  | none => simp [RotatedSecretType.Labels, hsvc] at hmem
  | some svc =>
    simp only [RotatedSecretType.Labels, hsvc, ServiceAccountKeySpec.Labels,
      List.mem_cons, List.not_mem_nil, or_false] at hmem
    rcases hmem with h | h
    · have hk : k = "project" := by rw [← hkv, h]
      rw [hk] at hm
      exact absurd hm (by decide)
    · have hk : k = "service-account" := by rw [← hkv, h]
      rw [hk] at hm
      exact absurd hm (by decide)

theorem any_cond_eq (P S : String) (g : GoDuration) (now : GoTime) (s : Rot.Secret)
    (L : List (String × String)) (k : String) (hm : isVersionLabelKey k = true) :
    (L.any fun kv => kv.1 == k && fires P S g now s kv.1) =
      (L.any fun kv => fires P S g now s kv.1 && (versionOfKey kv.1 == versionOfKey k)) := by
  induction L with
  | nil => rfl
  | cons kv rest ih =>
    simp only [List.any_cons, ih]
    congr 1
    rcases Bool.eq_false_or_eq_true (fires P S g now s kv.1) with hf | hf
    · have hmk : isVersionLabelKey kv.1 = true := by
        unfold fires at hf
        have := Bool.and_elim_left hf
        exact this
      by_cases he : kv.1 = k
      · simp [he, hf]
      · have hne : versionOfKey kv.1 ≠ versionOfKey k :=
          fun hvk => he (versionOfKey_inj _ _ hmk hm hvk)
        simp [he, hne, hf]
    · simp [hf]

/-- C6 counterexample to the claim as stated: on `clGrace` at `now = 110`,
which is exactly `createTime(2) + gracePeriod = 100 + 10`, the pass keeps
label `v1` (deactivation requires strictly-after), while the claimed set
`{N : ... createTime(N+1) + gracePeriod > now}` excludes 1 because
`110 > 110` is false; so the label-key set differs from the claimed set. -/
theorem Deactivate_boundary_keeps_label :
    (rotMock.Deactivate clGrace specGrace 110).map
        (fun cl => (cl.getSecret? "project-1" "secret-1").map
          (fun s => (s.Labels.find? "v1").isSome)) = .ok (some true) ∧
    ¬ ((100 : GoTime) + specGrace.GracePeriod > 110) := by
  constructor
  · decide
  · decide

/-- C6 (amended): with a registered provisioner whose revocation always
succeeds (the repository's mock), starting from a store whose `v<N>` label
keys track exactly the existing non-DESTROYED versions, after `Deactivate`
completes the `v<N>` label keys are exactly the `N` such that version `N`
exists with state not DESTROYED and version `N+1` either does not exist or
`createTime(N+1) + gracePeriod ≥ now`. The boundary is `≥`, not the claimed
strict `>`: at `now` exactly equal to the deadline the version is retained. -/
theorem Deactivate_label_invariant (r : SecretRotator) (cl cl2 : Rot.MockClient)
    (spec : RotatedSecretSpec) (now : GoTime) (s : Rot.Secret) (p : SecretProvisioner)
    (hp : r.Provisioners.find? spec.SecretType.TypeStr = some p)
    (hpd : ∀ l v, p.Deactivate l v = .ok ())
    (hs : cl.getSecret? spec.Project spec.Secret = some s)
    (hagree : ∀ k, isVersionLabelKey k = true →
      ((s.Labels.find? k).isSome = true ↔
        ∃ ver, s.Versions.find? (versionOfKey k) = some ver ∧
          ver.State ≠ Rot.SecretVersionState.DESTROYED))
    (hd : r.Deactivate cl spec now = .ok cl2) :
    ∃ s2, cl2.getSecret? spec.Project spec.Secret = some s2 ∧
      ∀ k, isVersionLabelKey k = true →
        ((s2.Labels.find? k).isSome = true ↔
          ∃ ver, s2.Versions.find? (versionOfKey k) = some ver ∧
            ver.State ≠ Rot.SecretVersionState.DESTROYED ∧
            (∀ nver, s2.Versions.find? (toString (Atoi (versionOfKey k) + 1)) = some nver →
              now ≤ nver.CreateTime + spec.GracePeriod)) := by
  obtain ⟨m, hproj⟩ : ∃ m, cl.Secrets.find? spec.Project = some m := by
    cases hproj : cl.Secrets.find? spec.Project with
    | none => simp [Rot.MockClient.getSecret?, hproj] at hs
    | some m => exact ⟨m, rfl⟩
  unfold SecretRotator.Deactivate at hd
  rw [Rot.MockClient.getSecretLabels_of_getSecret cl _ _ s hs] at hd
  simp only [Except.ok.injEq] at hd
  subst hd
  rw [deactivateLoop_localizes r spec now (labelsUnion s.Labels spec.SecretType.Labels) p hp hpd
    (labelsUnion s.Labels spec.SecretType.Labels) cl m s hproj hs]
  refine ⟨_, Rot.MockClient.setSecret_getSecret cl _ _ m hproj _, ?_⟩
  intro k hm
  have hv_lat := versionOfKey_ne_latest k hm
  have hnv_lat := toString_nat_ne_latest (Atoi (versionOfKey k) + 1)
  have hshape := run_shape spec.Project spec.Secret spec.GracePeriod now
    (labelsUnion s.Labels spec.SecretType.Labels) s
  have hlab := run_labels spec.Project spec.Secret spec.GracePeriod now s
    (labelsUnion s.Labels spec.SecretType.Labels) s (VersionsShape.refl' _) k
  have hverv := run_versions spec.Project spec.Secret spec.GracePeriod now s
    (labelsUnion s.Labels spec.SecretType.Labels) s (VersionsShape.refl' _) (versionOfKey k)
  have hcond := any_cond_eq spec.Project spec.Secret spec.GracePeriod now s
    (labelsUnion s.Labels spec.SecretType.Labels) k hm
  rcases Bool.eq_false_or_eq_true ((labelsUnion s.Labels spec.SecretType.Labels).any
      (fun kv => kv.1 == k &&
        fires spec.Project spec.Secret spec.GracePeriod now s kv.1)) with hc | hc
  · have hcv : (labelsUnion s.Labels spec.SecretType.Labels).any
        (fun kv => fires spec.Project spec.Secret spec.GracePeriod now s kv.1 &&
          (versionOfKey kv.1 == versionOfKey k)) = true := by
      rw [← hcond]
      exact hc
    rw [hlab, if_pos hc, hverv, if_pos hcv]
    constructor
    · intro h
      simp at h
    · rintro ⟨ver, hfind, hstate, -⟩
      obtain ⟨x, hx, hxv⟩ := Option.map_eq_some'.mp hfind
      have hvd : ver.State = Rot.SecretVersionState.DESTROYED := by
        rw [← hxv]
      exact (hstate hvd).elim
  · have hcv : (labelsUnion s.Labels spec.SecretType.Labels).any
        (fun kv => fires spec.Project spec.Secret spec.GracePeriod now s kv.1 &&
          (versionOfKey kv.1 == versionOfKey k)) = false := by
      rw [← hcond]
      exact hc
    rw [hlab, if_neg (by simp [hc]), hverv, if_neg (by simp [hcv])]
    constructor
    · intro hlabk
      obtain ⟨ver, hfind, hstate⟩ := (hagree k hm).mp hlabk
      refine ⟨ver, hfind, hstate, ?_⟩
      have hLk := labelsUnion_isSome_mono spec.SecretType.Labels s.Labels k hlabk
      obtain ⟨val, hmemL⟩ := SMap.exists_mem_of_find?_isSome _ k hLk
      have hfk : fires spec.Project spec.Secret spec.GracePeriod now s k = false := by
        rcases Bool.eq_false_or_eq_true
            (fires spec.Project spec.Secret spec.GracePeriod now s k) with hf | hf
        · exfalso
          have hany : (labelsUnion s.Labels spec.SecretType.Labels).any
              (fun kv => kv.1 == k &&
                fires spec.Project spec.Secret spec.GracePeriod now s kv.1) = true :=
            List.any_eq_true.mpr ⟨(k, val), hmemL, by simp [hf]⟩
          rw [hany] at hc
          exact Bool.noConfusion hc
        · exact hf
      have hsd : sdDecision spec.Project spec.Secret spec.GracePeriod s
          (versionOfKey k) now = false := by
        unfold fires at hfk
        rw [hm] at hfk
        simpa using hfk
      have hAB : ¬ (((s.Versions.find? (versionOfKey k)).isSome = true) ∧
          ∃ nver0, s.Versions.find? (toString (Atoi (versionOfKey k) + 1)) = some nver0 ∧
            now > nver0.CreateTime + spec.GracePeriod) := by
        rw [← sdDecision_true_iff spec.Project spec.Secret spec.GracePeriod now s
          (versionOfKey k) hv_lat hnv_lat]
        simp [hsd]
      have hnotB : ¬ ∃ nver0,
          s.Versions.find? (toString (Atoi (versionOfKey k) + 1)) = some nver0 ∧
            now > nver0.CreateTime + spec.GracePeriod := by
        intro hB
        exact hAB ⟨by rw [hfind]; rfl, hB⟩
      intro nver hnver
      have hsf := hshape (toString (Atoi (versionOfKey k) + 1))
      rw [hnver] at hsf
      cases hs0 : s.Versions.find? (toString (Atoi (versionOfKey k) + 1)) with
      | none =>
        rw [hs0] at hsf
        simp at hsf
      | some nver0 =>
        rw [hs0] at hsf
        simp only [Option.map_some', Option.some.injEq] at hsf
        have hle : now ≤ nver0.CreateTime + spec.GracePeriod := by
          by_contra hgt
          push_neg at hgt
          exact hnotB ⟨nver0, hs0, hgt⟩
        rw [hsf]
        exact hle
    · rintro ⟨ver, hfind, hstate, -⟩
      exact (hagree k hm).mpr ⟨ver, hfind, hstate⟩

/-- C6 witness: the deactivation pass on the four-version fixture at time 22
satisfies the amended invariant. -/
theorem Deactivate_label_invariant_witness :
    ∃ s2, clMultiAfter.getSecret? specMulti.Project specMulti.Secret = some s2 ∧
      ∀ k, isVersionLabelKey k = true →
        ((s2.Labels.find? k).isSome = true ↔
          ∃ ver, s2.Versions.find? (versionOfKey k) = some ver ∧
            ver.State ≠ Rot.SecretVersionState.DESTROYED ∧
            (∀ nver, s2.Versions.find? (toString (Atoi (versionOfKey k) + 1)) = some nver →
              (22 : GoTime) ≤ nver.CreateTime + specMulti.GracePeriod)) :=
  Deactivate_label_invariant rotMock clMulti clMultiAfter specMulti 22 sMulti mockProvisioner
    (by rfl) (fun _ _ => rfl) (by decide)
    (by
      intro k hm
      by_cases h1 : k = "v1"
      · subst h1
        exact ⟨fun _ => ⟨⟨0, [1], .ENABLED⟩, by decide, by decide⟩, fun _ => by decide⟩
      by_cases h2 : k = "v2"
      · subst h2
        exact ⟨fun _ => ⟨⟨7, [2], .ENABLED⟩, by decide, by decide⟩, fun _ => by decide⟩
      by_cases h3 : k = "v3"
      · subst h3
        exact ⟨fun _ => ⟨⟨14, [3], .ENABLED⟩, by decide, by decide⟩, fun _ => by decide⟩
      by_cases h4 : k = "v4"
      · subst h4
        exact ⟨fun _ => ⟨⟨21, [4], .ENABLED⟩, by decide, by decide⟩, fun _ => by decide⟩
      have hpk : k ≠ "project" := by
        intro he
        rw [he] at hm
        exact absurd hm (by decide)
      have hsk : k ≠ "service-account" := by
        intro he
        rw [he] at hm
        exact absurd hm (by decide)
      constructor
      · intro hsome
        exfalso
        simp [sMulti, SMap.find?, hpk, hsk, h1, h2, h3, h4] at hsome
      · rintro ⟨ver, hv, -⟩
        exfalso
        have hr := append_versionOfKey k hm
        by_cases hq1 : versionOfKey k = "1"
        · rw [hq1] at hr
          exact h1 (hr.symm.trans (by rfl))
        by_cases hq2 : versionOfKey k = "2"
        · rw [hq2] at hr
          exact h2 (hr.symm.trans (by rfl))
        by_cases hq3 : versionOfKey k = "3"
        · rw [hq3] at hr
          exact h3 (hr.symm.trans (by rfl))
        by_cases hq4 : versionOfKey k = "4"
        · rw [hq4] at hr
          exact h4 (hr.symm.trans (by rfl))
        simp [sMulti, SMap.find?, hq1, hq2, hq3, hq4] at hv)
    (by decide)
